import Mathlib

/-!
OCS2 core: penalty function, rollout helpers and switched-model initializer

A shallow embedding of

* `ocs2_core/penalties/augmented/ModifiedRelaxedBarrierPenalty.h`
* `ocs2_ddp/src/DDP_HelperFunctions.cpp`
* `ocs2_switched_model_interface/src/initialization/ComKinoInitializer.cpp`

`scalar_t` (a C++ `double`) is modelled by an arbitrary linearly ordered field `K`
(exact arithmetic, `x / 0 = 0`); rounding, overflow and NaN are not modelled there. Where a zero
denominator decides a statement, `updateMultiplier` is also embedded over `Double K`, the
finite values of `K` together with the infinities and NaN of IEEE 754 (`ieee.updateMultiplier`).
The libm function `log` is a parameter of the definitions that call it, so every
definition stays executable (for instance over `ℚ`); the analytic statements
instantiate `K := ℝ` and `log := Real.log`.

A `std::vector` and an Eigen `vector_t` are lists. Collaborators that are virtual or not among
the sources (`RolloutBase::run`, the `OptimalControlProblem` interface, `LinearController::clear`,
the mode-schedule manager, `weightCompensatingInputs`) are parameters of the functions that call
them. A function that writes through reference arguments returns their values after the call.
-/

namespace ocs2

namespace augmented

/-- The struct `ModifiedRelaxedBarrierPenalty::Config`. -/
structure Config (K : Type) where
  scale : K
  relaxation : K
  stepSize : K

section Penalty

variable {K : Type} [LinearOrderedField K]

/-- The default arguments of the `Config` constructor:
`scaleParam = 100.0, relaxationParam = 1e-2, stepSizeParam = 0.0`. -/
def Config.default : Config K := ⟨100, 1 / 100, 0⟩

/-- The member `a_`, set by the constructor: `1.0 / std::pow(1.0 + config_.relaxation, 2)`. -/
def a_ (config : Config K) : K := 1 / (1 + config.relaxation) ^ 2

/-- The member `b_`, set by the constructor: `-1.0 / (1.0 + config_.relaxation)`. -/
def b_ (config : Config K) : K := -1 / (1 + config.relaxation)

/-- The member `c_`, set by the constructor: `-log(1.0 + config_.relaxation)`. -/
def c_ (log : K → K) (config : Config K) : K := -log (1 + config.relaxation)

/-- The private helper `dldhFunc`: `1.0 / (config_.scale * l)`. -/
def dldhFunc (config : Config K) (l : K) : K := 1 / (config.scale * l)

/-- The private helper `wFunc`: `config_.scale * l * l`. -/
def wFunc (config : Config K) (l : K) : K := config.scale * l * l

/-- The private helper `vFunc`: `h / (config_.scale * l)`. -/
def vFunc (config : Config K) (l h : K) : K := h / (config.scale * l)

/-- The method `getValue(t, l, h)`. -/
def getValue (log : K → K) (config : Config K) (_t l h : K) : K :=
  let v := vFunc config l h
  if v > config.relaxation then
    -v * log (1 + wFunc config l)
  else
    let vTemp := v - config.relaxation
    wFunc config l * (1 / 2 * a_ config * vTemp * vTemp + b_ config * vTemp + c_ log config)

/-- The method `getDerivative(t, l, h)`. -/
def getDerivative (config : Config K) (_t l h : K) : K :=
  let v := vFunc config l h
  if v > config.relaxation then
    -wFunc config l / (1 + v) * dldhFunc config l
  else
    wFunc config l * (a_ config * (v - config.relaxation) + b_ config) * dldhFunc config l

/-- The method `getSecondDerivative(t, l, h)`. -/
def getSecondDerivative (config : Config K) (_t l h : K) : K :=
  let v := vFunc config l h
  let dldh := dldhFunc config l
  if v > config.relaxation then
    wFunc config l / ((1 + v) * (1 + v)) * dldh * dldh
  else
    wFunc config l * a_ config * dldh * dldh

/-- The local constant `lambdaMin = 1e-4` of `updateMultiplier`. -/
def lambdaMin : K := 1 / 10000

/-- The method `updateMultiplier(t, l, h)`. -/
def updateMultiplier (config : Config K) (_t l h : K) : K :=
  let v := vFunc config l h
  if v > config.relaxation then
    max (wFunc config l * (1 / (1 + v)) * dldhFunc config l) lambdaMin
  else
    max (config.stepSize * wFunc config l * (-a_ config * (v - config.relaxation) - b_ config)
      * dldhFunc config l) lambdaMin

/-- The method `initializeMultiplier()`. -/
def initializeMultiplier : K := 1

end Penalty

section NonFinite

variable {K : Type} [LinearOrderedField K]

/-- A `double` together with the non-finite values of IEEE 754: a finite value, an infinity
or NaN. Finite values are exact (no rounding, no overflow) and a zero is `+0`. -/
inductive Double (K : Type) where
  | finite (x : K)
  | posInf
  | negInf
  | nan

/-- The sum `a + b` of two doubles: `inf + (-inf)` is NaN, NaN propagates. -/
def Double.add : Double K → Double K → Double K
  | .finite x, .finite y => .finite (x + y)
  | .nan, _ => .nan
  | _, .nan => .nan
  | .posInf, .negInf => .nan
  | .negInf, .posInf => .nan
  | .posInf, _ => .posInf
  | _, .posInf => .posInf
  | .negInf, _ => .negInf
  | _, .negInf => .negInf

/-- The negation `-a` of a double. -/
def Double.neg : Double K → Double K
  | .finite x => .finite (-x)
  | .posInf => .negInf
  | .negInf => .posInf
  | .nan => .nan

/-- The product `a * b` of two doubles: `0 * inf` is NaN, an infinity takes the product of the
signs, NaN propagates. -/
def Double.mul : Double K → Double K → Double K
  | .finite x, .finite y => .finite (x * y)
  | .nan, _ => .nan
  | _, .nan => .nan
  | .finite x, .posInf => if 0 < x then .posInf else if x < 0 then .negInf else .nan
  | .finite x, .negInf => if 0 < x then .negInf else if x < 0 then .posInf else .nan
  | .posInf, .finite y => if 0 < y then .posInf else if y < 0 then .negInf else .nan
  | .negInf, .finite y => if 0 < y then .negInf else if y < 0 then .posInf else .nan
  | .posInf, .posInf => .posInf
  | .posInf, .negInf => .negInf
  | .negInf, .posInf => .negInf
  | .negInf, .negInf => .posInf

/-- The quotient `a / b` of two doubles: `x / 0` is an infinity of the sign of `x` and `0 / 0`
is NaN (the zero is `+0`), `x / inf` is zero, `inf / inf` is NaN, NaN propagates. -/
def Double.div : Double K → Double K → Double K
  | .finite x, .finite y =>
    if y = 0 then (if 0 < x then .posInf else if x < 0 then .negInf else .nan)
    else .finite (x / y)
  | .nan, _ => .nan
  | _, .nan => .nan
  | .finite _, .posInf => .finite 0
  | .finite _, .negInf => .finite 0
  | .posInf, .finite y => if y < 0 then .negInf else .posInf
  | .negInf, .finite y => if y < 0 then .posInf else .negInf
  | .posInf, .posInf => .nan
  | .posInf, .negInf => .nan
  | .negInf, .posInf => .nan
  | .negInf, .negInf => .nan

/-- The comparison `a < b` of two doubles: false as soon as one of them is NaN. -/
def Double.lt : Double K → Double K → Bool
  | .finite x, .finite y => decide (x < y)
  | .finite _, .posInf => true
  | .negInf, .finite _ => true
  | .negInf, .posInf => true
  | _, _ => false

/-- The comparison `a <= b` of two doubles: false as soon as one of them is NaN. -/
def Double.le : Double K → Double K → Bool
  | .finite x, .finite y => decide (x ≤ y)
  | .finite _, .posInf => true
  | .negInf, .finite _ => true
  | .negInf, .posInf => true
  | .posInf, .posInf => true
  | .negInf, .negInf => true
  | _, _ => false

/-- The function `std::max(a, b)` on doubles: `(a < b) ? b : a`. -/
def Double.max (a b : Double K) : Double K := if Double.lt a b then b else a

instance : Add (Double K) := ⟨Double.add⟩

instance : Neg (Double K) := ⟨Double.neg⟩

instance : Sub (Double K) := ⟨fun a b => Double.add a (Double.neg b)⟩

instance : Mul (Double K) := ⟨Double.mul⟩

instance : Div (Double K) := ⟨Double.div⟩

end NonFinite

namespace ieee

variable {K : Type} [LinearOrderedField K]

/-- The member `a_` on doubles: `1.0 / std::pow(1.0 + config_.relaxation, 2)`, the square
being a product. -/
def a_ (config : Config (Double K)) : Double K :=
  Double.finite 1 / ((Double.finite 1 + config.relaxation)
    * (Double.finite 1 + config.relaxation))

/-- The member `b_` on doubles: `-1.0 / (1.0 + config_.relaxation)`. -/
def b_ (config : Config (Double K)) : Double K :=
  Double.finite (-1) / (Double.finite 1 + config.relaxation)

/-- The private helper `dldhFunc` on doubles: `1.0 / (config_.scale * l)`. -/
def dldhFunc (config : Config (Double K)) (l : Double K) : Double K :=
  Double.finite 1 / (config.scale * l)

/-- The private helper `wFunc` on doubles: `config_.scale * l * l`. -/
def wFunc (config : Config (Double K)) (l : Double K) : Double K := config.scale * l * l

/-- The private helper `vFunc` on doubles: `h / (config_.scale * l)`. -/
def vFunc (config : Config (Double K)) (l h : Double K) : Double K := h / (config.scale * l)

/-- The local constant `lambdaMin = 1e-4` of `updateMultiplier`, as a double. -/
def lambdaMin : Double K := Double.finite (1 / 10000)

/-- The method `updateMultiplier(t, l, h)` on doubles with their non-finite values. The test
`v > config_.relaxation` is `config_.relaxation < v`. -/
def updateMultiplier (config : Config (Double K)) (_t l h : Double K) : Double K :=
  let v := vFunc config l h
  if Double.lt config.relaxation v then
    Double.max (wFunc config l * (Double.finite 1 / (Double.finite 1 + v)) * dldhFunc config l)
      lambdaMin
  else
    Double.max (config.stepSize * wFunc config l
      * (-a_ config * (v - config.relaxation) - b_ config) * dldhFunc config l) lambdaMin

end ieee

end augmented

section Metrics

variable {α K : Type}

/-- The struct `Metrics` (declared in `ocs2_oc/oc_data/Metrics.h`), with the members that
`DDP_HelperFunctions.cpp` reads. A `vector_t` is the list of its coefficients; a
`Metrics::value_t` is a pair of which only `.second`, a scalar, is read (`α` is the type of
`.first`). -/
structure Metrics (α K : Type) where
  cost : K
  stateEqConstraint : List K
  stateInputEqConstraint : List K
  stateEqLagrangian : List (α × K)
  stateIneqLagrangian : List (α × K)
  stateInputEqLagrangian : List (α × K)
  stateInputIneqLagrangian : List (α × K)

/-- The struct `MetricsCollection`: `final`, `preJumps`, `intermediates`. -/
structure MetricsCollection (α K : Type) where
  final : Metrics α K
  preJumps : List (Metrics α K)
  intermediates : List (Metrics α K)

/-- The struct `PerformanceIndex`, the five scalars that `computeRolloutPerformanceIndex`
assigns. -/
structure PerformanceIndex (K : Type) where
  totalCost : K
  dynamicsViolationSSE : K
  equalityConstraintsSSE : K
  equalityLagrangiansPenalty : K
  inequalityLagrangiansPenalty : K

/-- The algorithm `std::for_each(first, last, f)`: calls `f` on every element in order and
discards what `f` returns. A lambda that captures by reference is a function from the captured
state and the element to the new captured state and the value the lambda returns. -/
def forEach {σ β γ : Type} (xs : List β) (f : σ → β → σ × γ) (s : σ) : σ :=
  xs.foldl (fun acc x => (f acc x).1) s

variable [LinearOrderedField K]

/-- Eigen's `squaredNorm()` of a `vector_t`. -/
def squaredNorm (v : List K) : K := (v.map fun x => x * x).sum

/-- Modelled from the spec: `trapezoidalIntegration` of
`ocs2_core/integration/TrapezoidalIntegration.h`, which is not among the sources. Trapezoidal
integration over `N` non-uniformly spaced samples of `f(t)` is
`Σ_{k=0}^{N-2} 0.5·(f_k+f_{k+1})·(t_{k+1}−t_k)`; zero-length or single-sample trajectories
integrate to 0. -/
def trapezoidalIntegration (timeTrajectory valueTrajectory : List K) : K :=
  ((List.range (timeTrajectory.length - 1)).map fun k =>
    1 / 2 * (valueTrajectory.getD k 0 + valueTrajectory.getD (k + 1) 0)
      * (timeTrajectory.getD (k + 1) 0 - timeTrajectory.getD k 0)).sum

/-- The local lambda `sum` of `computeRolloutPerformanceIndex`: `s = 0.0`, then
`s += v.second` for every term. -/
def sum (termsValue : List (α × K)) : K :=
  forEach termsValue (fun (s : K) v => (s + v.2, ())) 0

/-- The function `computeRolloutPerformanceIndex(timeTrajectory, metrics)`. The leading `assert`
on the two lengths is the `none` result; under it each `std::transform` into a vector of
`timeTrajectory.size()` elements is a `map` over the intermediates. The four `std::for_each`
calls over `metrics.preJumps` run lambdas that return a sum and assign nothing. -/
def computeRolloutPerformanceIndex (timeTrajectory : List K) (metrics : MetricsCollection α K) :
    Option (PerformanceIndex K) :=
  if timeTrajectory.length ≠ metrics.intermediates.length then none
  else
    let performanceIndex : PerformanceIndex K := ⟨0, 0, 0, 0, 0⟩
    -- Total cost
    let performanceIndex := { performanceIndex with totalCost := metrics.final.cost }
    let performanceIndex := forEach metrics.preJumps
      (fun (p : PerformanceIndex K) m => (p, p.totalCost + m.cost)) performanceIndex
    let costTrajectory := metrics.intermediates.map fun m => m.cost
    let performanceIndex := { performanceIndex with
      totalCost := performanceIndex.totalCost
        + trapezoidalIntegration timeTrajectory costTrajectory }
    -- Dynamics violation
    let performanceIndex := { performanceIndex with dynamicsViolationSSE := 0 }
    -- Equality constraints' SSE
    let performanceIndex := { performanceIndex with
      equalityConstraintsSSE := squaredNorm metrics.final.stateEqConstraint }
    let performanceIndex := forEach metrics.preJumps
      (fun (p : PerformanceIndex K) m =>
        (p, p.equalityConstraintsSSE + squaredNorm m.stateEqConstraint)) performanceIndex
    let equalityNorm2Trajectory := metrics.intermediates.map fun m =>
      squaredNorm m.stateEqConstraint + squaredNorm m.stateInputEqConstraint
    let performanceIndex := { performanceIndex with
      equalityConstraintsSSE := performanceIndex.equalityConstraintsSSE
        + trapezoidalIntegration timeTrajectory equalityNorm2Trajectory }
    -- Equality Lagrangians penalty
    let performanceIndex := { performanceIndex with
      equalityLagrangiansPenalty := sum metrics.final.stateEqLagrangian }
    let performanceIndex := forEach metrics.preJumps
      (fun (p : PerformanceIndex K) m =>
        (p, p.equalityLagrangiansPenalty + sum m.stateEqLagrangian)) performanceIndex
    let equalityPenaltyTrajectory := metrics.intermediates.map fun m =>
      sum m.stateEqLagrangian + sum m.stateInputEqLagrangian
    let performanceIndex := { performanceIndex with
      equalityLagrangiansPenalty := performanceIndex.equalityLagrangiansPenalty
        + trapezoidalIntegration timeTrajectory equalityPenaltyTrajectory }
    -- Inequality Lagrangians penalty
    let performanceIndex := { performanceIndex with
      inequalityLagrangiansPenalty := sum metrics.final.stateIneqLagrangian }
    let performanceIndex := forEach metrics.preJumps
      (fun (p : PerformanceIndex K) m =>
        (p, p.inequalityLagrangiansPenalty + sum m.stateIneqLagrangian)) performanceIndex
    let inequalityPenaltyTrajectory := metrics.intermediates.map fun m =>
      sum m.stateIneqLagrangian + sum m.stateInputIneqLagrangian
    let performanceIndex := { performanceIndex with
      inequalityLagrangiansPenalty := performanceIndex.inequalityLagrangiansPenalty
        + trapezoidalIntegration timeTrajectory inequalityPenaltyTrajectory }
    some performanceIndex

/-- A `Metrics` value holding the given `cost` and `stateEqConstraint` and nothing else. -/
def Metrics.ofCost (cost : K) (stateEqConstraint : List K) : Metrics α K :=
  ⟨cost, stateEqConstraint, [], [], [], [], []⟩

end Metrics

section Controller

variable {G K : Type}

/-- The class `LinearController` (declared in `ocs2_core/control/LinearController.h`), with the
four members that `DDP_HelperFunctions.cpp` uses. `G` is the type of a gain matrix, which is
only copied; a `vector_t` is the list of its coefficients. -/
structure LinearController (G K : Type) where
  timeStamp_ : List K
  gainArray_ : List G
  biasArray_ : List (List K)
  deltaBiasArray_ : List (List K)

/-- Modelled from the spec: `LinearController::size()`, which is not among the sources. The
controller is an ordered sequence of time stamps with parallel gain and bias sequences; its
size is the number of samples, that is of time stamps. -/
def LinearController.size (controller : LinearController G K) : Nat :=
  controller.timeStamp_.length

/-- The method `std::vector::resize(n)`: keeps the first `n` elements and appends
value-initialised elements (`d`) up to size `n`. -/
def resize {β : Type} (xs : List β) (n : Nat) (d : β) : List β :=
  xs.take n ++ List.replicate (n - xs.length) d

/-- The call `std::transform(first, last, d_first, op)` whose destination is the vector `dst`:
the images of the source elements overwrite the leading elements of `dst`. (Writing past the end
of `dst` is undefined in C++; the model then keeps every written value.) -/
def transform {β γ : Type} (src : List β) (dst : List γ) (op : β → γ) : List γ :=
  src.map op ++ dst.drop src.length

variable [LinearOrderedField K]

/-- Eigen's `a + b` on two `vector_t`, coefficient by coefficient. Eigen requires equal sizes;
on unequal sizes the model stops at the shorter one. -/
def vecAdd (a b : List K) : List K := List.zipWith (fun x y => x + y) a b

/-- Eigen's `a - b` on two `vector_t`, coefficient by coefficient. -/
def vecSub (a b : List K) : List K := List.zipWith (fun x y => x - y) a b

/-- Eigen's `s * v` of a scalar and a `vector_t`. -/
def scalarMul (s : K) (v : List K) : List K := v.map fun x => s * x

/-- The function `computeControllerUpdateIS(controller)`. -/
def computeControllerUpdateIS (controller : LinearController G K) : K :=
  let biasArraySquaredNorm : List K := List.replicate controller.timeStamp_.length 0
  let biasArraySquaredNorm :=
    transform controller.deltaBiasArray_ biasArraySquaredNorm fun b => squaredNorm b
  trapezoidalIntegration controller.timeStamp_ biasArraySquaredNorm

/-- The function `incrementController(stepLength, unoptimizedController, controller)`; the result
is the value of the reference argument `controller` after the call. `clear` is the method
`LinearController::clear()`, which is not among the sources. Reading `biasArray_[k]` or
`deltaBiasArray_[k]` past the end (undefined in C++) gives the empty vector. -/
def incrementController (clear : LinearController G K → LinearController G K) (stepLength : K)
    (unoptimizedController controller : LinearController G K) : LinearController G K :=
  let controller := clear controller
  let controller := { controller with timeStamp_ := unoptimizedController.timeStamp_ }
  let controller := { controller with gainArray_ := unoptimizedController.gainArray_ }
  let controller := { controller with
    biasArray_ := resize controller.biasArray_ unoptimizedController.size [] }
  (List.range unoptimizedController.size).foldl
    (fun (controller : LinearController G K) k =>
      { controller with
        biasArray_ := controller.biasArray_.set k
          (vecAdd (unoptimizedController.biasArray_.getD k [])
            (scalarMul stepLength (unoptimizedController.deltaBiasArray_.getD k []))) })
    controller

end Controller

section Rollout

variable {C K : Type}

/-- The struct `ModeSchedule`: the event times and the mode sequence. -/
structure ModeSchedule (K : Type) where
  eventTimes : List K
  modeSequence : List Nat

/-- The struct `PrimalSolution`, with the members that `DDP_HelperFunctions.cpp` uses. `C` is
the type of the controller that `controllerPtr_` points to. -/
structure PrimalSolution (C K : Type) where
  timeTrajectory_ : List K
  postEventIndices_ : List Nat
  stateTrajectory_ : List (List K)
  inputTrajectory_ : List (List K)
  controllerPtr_ : C
  modeSchedule_ : ModeSchedule K

/-- What a call of the virtual method `RolloutBase::run` yields: the final state it returns
and the four trajectories it writes through its reference arguments. A coefficient of the
final state is `some x` for a finite double `x` and `none` for an infinity or a NaN. -/
structure RunResult (K : Type) where
  xCurrent : List (Option K)
  timeTrajectory : List K
  postEventIndices : List Nat
  stateTrajectory : List (List K)
  inputTrajectory : List (List K)

/-- Eigen's `allFinite()`: no coefficient is an infinity or a NaN. -/
def allFinite (x : List (Option K)) : Bool := x.all fun c => c.isSome

variable [LinearOrderedField K]

/-- The function `rolloutTrajectory(rollout, timePeriod, initState, modeSchedule,
primalSolution)`. `run` is `rollout.run`, with its arguments in the order of the call. The result
is the value of the reference argument `primalSolution` when the function is left, together with
the returned average time step or the message of the `std::runtime_error` thrown. -/
def rolloutTrajectory
    (run : K → List K → K → C → List K → List K → List Nat → List (List K) → List (List K)
      → RunResult K)
    (timePeriod : K × K) (initState : List K) (modeSchedule : ModeSchedule K)
    (primalSolution : PrimalSolution C K) : PrimalSolution C K × Except String K :=
  -- fill mode schedule
  let primalSolution := { primalSolution with modeSchedule_ := modeSchedule }
  -- rollout with controller
  let r := run timePeriod.1 initState timePeriod.2 primalSolution.controllerPtr_
    modeSchedule.eventTimes primalSolution.timeTrajectory_ primalSolution.postEventIndices_
    primalSolution.stateTrajectory_ primalSolution.inputTrajectory_
  let primalSolution := { primalSolution with
    timeTrajectory_ := r.timeTrajectory
    postEventIndices_ := r.postEventIndices
    stateTrajectory_ := r.stateTrajectory
    inputTrajectory_ := r.inputTrajectory }
  if !allFinite r.xCurrent then
    (primalSolution, Except.error "System became unstable during the rollout.")
  else
    -- average time step
    (primalSolution,
      Except.ok ((timePeriod.2 - timePeriod.1) / (primalSolution.timeTrajectory_.length : K)))

end Rollout

section RolloutMetrics

variable {P D C α K : Type}

/-- The flags of the enum `Request` that `computeRolloutMetrics` combines. -/
inductive Request where
  | Cost
  | Constraint
  | SoftConstraint
  deriving DecidableEq

/-- The struct behind `DualSolutionConstRef`: the multiplier collections (`D`) of the final
time, of the pre-jump events and of the intermediate samples. -/
structure DualSolution (D : Type) where
  final : D
  preJumps : List D
  intermediates : List D

/-- The interface of `OptimalControlProblem` that `computeRolloutMetrics` calls; none of it is
among the sources. `P` is the state of the problem, which the three request methods of
`problem.preComputationPtr` update; the three metrics evaluators of `ocs2_oc` read it. -/
structure ProblemInterface (P D α K : Type) where
  request : List Request → K → List K → List K → P → P
  requestPreJump : List Request → K → List K → P → P
  requestFinal : List Request → K → List K → P → P
  computeIntermediateMetrics : P → K → List K → List K → D → Metrics α K
  computePreJumpMetrics : P → K → List K → D → Metrics α K
  computeFinalMetrics : P → K → List K → D → Metrics α K

/-- What the loop of `computeRolloutMetrics` updates: the problem, the metrics and the
position of the iterator `nextPostEventIndexItr` in `postEventIndices`. -/
structure MetricsLoopState (P α K : Type) where
  problem : P
  metrics : MetricsCollection α K
  nextPostEventIndexItr : Nat

variable [LinearOrderedField K]

/-- Modelled from the spec: the function `clear(MetricsCollection&)` of
`ocs2_oc/oc_data/Metrics.h`, which is not among the sources. A metrics collection is created
fresh per rollout evaluation: no intermediates, no pre-jumps, and a final bundle with zero cost
and no terms. -/
def clear (_metrics : MetricsCollection α K) : MetricsCollection α K :=
  ⟨⟨0, [], [], [], [], [], []⟩, [], []⟩

/-- The local `request` of `computeRolloutMetrics`:
`Request::Cost + Request::Constraint + Request::SoftConstraint`. -/
def rolloutRequest : List Request := [Request.Cost, Request.Constraint, Request.SoftConstraint]

/-- One pass through the body of the `for` loop of `computeRolloutMetrics`, at index `k`.
Reading a vector past its end (undefined in C++) gives the default value. -/
def computeRolloutMetricsStep [Inhabited D] (problemInterface : ProblemInterface P D α K)
    (primalSolution : PrimalSolution C K) (dualSolution : DualSolution D)
    (s : MetricsLoopState P α K) (k : Nat) : MetricsLoopState P α K :=
  let tTrajectory := primalSolution.timeTrajectory_
  let xTrajectory := primalSolution.stateTrajectory_
  let uTrajectory := primalSolution.inputTrajectory_
  let postEventIndices := primalSolution.postEventIndices_
  -- intermediate time cost and constraints
  let problem := problemInterface.request rolloutRequest (tTrajectory.getD k 0)
    (xTrajectory.getD k []) (uTrajectory.getD k []) s.problem
  let metrics := { s.metrics with
    intermediates := s.metrics.intermediates ++
      [problemInterface.computeIntermediateMetrics problem (tTrajectory.getD k 0)
        (xTrajectory.getD k []) (uTrajectory.getD k []) (dualSolution.intermediates.getD k default)] }
  -- event time cost and constraints
  if s.nextPostEventIndexItr ≠ postEventIndices.length
      ∧ k + 1 = postEventIndices.getD s.nextPostEventIndexItr 0 then
    let m := dualSolution.preJumps.getD s.nextPostEventIndexItr default
    let problem := problemInterface.requestPreJump rolloutRequest (tTrajectory.getD k 0)
      (xTrajectory.getD k []) problem
    let metrics := { metrics with
      preJumps := metrics.preJumps ++
        [problemInterface.computePreJumpMetrics problem (tTrajectory.getD k 0)
          (xTrajectory.getD k []) m] }
    ⟨problem, metrics, s.nextPostEventIndexItr + 1⟩
  else
    ⟨problem, metrics, s.nextPostEventIndexItr⟩

/-- The state of `computeRolloutMetrics` when its `for` loop is left. -/
def computeRolloutMetricsLoop [Inhabited D] (problemInterface : ProblemInterface P D α K)
    (problem : P) (primalSolution : PrimalSolution C K) (dualSolution : DualSolution D)
    (metrics : MetricsCollection α K) : MetricsLoopState P α K :=
  (List.range primalSolution.timeTrajectory_.length).foldl
    (computeRolloutMetricsStep problemInterface primalSolution dualSolution)
    ⟨problem, clear metrics, 0⟩

/-- The function `computeRolloutMetrics(problem, primalSolution, dualSolution, metrics)`; the
result is the values of the reference arguments `problem` and `metrics` after the call. The
two `reserve` calls change no value. -/
def computeRolloutMetrics [Inhabited D] (problemInterface : ProblemInterface P D α K)
    (problem : P) (primalSolution : PrimalSolution C K) (dualSolution : DualSolution D)
    (metrics : MetricsCollection α K) : P × MetricsCollection α K :=
  let tTrajectory := primalSolution.timeTrajectory_
  let xTrajectory := primalSolution.stateTrajectory_
  let s := computeRolloutMetricsLoop problemInterface problem primalSolution dualSolution metrics
  -- final time cost and constraints
  if tTrajectory ≠ [] then
    let problem := problemInterface.requestFinal rolloutRequest (tTrajectory.getLastD 0)
      (xTrajectory.getLastD []) s.problem
    (problem, { s.metrics with
      final := problemInterface.computeFinalMetrics problem (tTrajectory.getLastD 0)
        (xTrajectory.getLastD []) dualSolution.final })
  else
    (s.problem, s.metrics)

/-- A problem for evaluating `computeRolloutMetrics` on concrete inputs: its state counts the
requests (`1` per intermediate, `10` per pre-jump, `100` per final request), and a metric
records the time as its cost and the state as its equality residual. -/
def exampleProblem : ProblemInterface Nat Unit Unit ℚ where
  request := fun _ _ _ _ p => p + 1
  requestPreJump := fun _ _ _ p => p + 10
  requestFinal := fun _ _ _ p => p + 100
  computeIntermediateMetrics := fun _ t x _ _ => Metrics.ofCost t x
  computePreJumpMetrics := fun _ t x _ => Metrics.ofCost t x
  computeFinalMetrics := fun _ t x _ => Metrics.ofCost t x

/-- A primal solution with three samples and one event, whose post-event index is `2`. -/
def examplePrimalSolution : PrimalSolution Unit ℚ :=
  ⟨[0, 1, 2], [2], [[1], [2], [3]], [[0], [0], [0]], (), ⟨[1], [0, 1]⟩⟩

/-- A dual solution for `examplePrimalSolution`. -/
def exampleDualSolution : DualSolution Unit := ⟨(), [()], [(), (), ()]⟩

/-- A rollout for evaluating `rolloutTrajectory` on concrete inputs: it holds the initial
state over the two samples `t0`, `t1` and returns it, every coefficient finite. -/
def exampleRun (t0 : ℚ) (x0 : List ℚ) (t1 : ℚ) (_controller : Unit) (_eventTimes : List ℚ)
    (_timeTrajectory : List ℚ) (_postEventIndices : List Nat)
    (_stateTrajectory _inputTrajectory : List (List ℚ)) : RunResult ℚ :=
  ⟨x0.map some, [t0, t1], [], [x0, x0], [[], []]⟩

end RolloutMetrics

end ocs2

namespace switched_model

section Initializer

variable {K M F : Type}

/-- The constant `STATE_DIM` of `SwitchedModel.h` (not among the sources), from the two block
sizes `b = BASE_COORDINATE_SIZE` and `j = JOINT_COORDINATE_SIZE`: `compute` fills a vector of
`STATE_DIM` coefficients with a pose, a `base_coordinate_t` and the joint positions. -/
def STATE_DIM (b j : Nat) : Nat := b + b + j

/-- The type `comkino_state_t`: a fixed-size vector of `STATE_DIM` coefficients. -/
def comkino_state_t (K : Type) (b j : Nat) : Type := { l : List K // l.length = STATE_DIM b j }

/-- Modelled from the spec: `getComPose` of `SwitchedModel.h`, which is not among the sources:
the floating-base pose block of the state, its leading `BASE_COORDINATE_SIZE` coefficients. -/
def getComPose {b j : Nat} (comkinoState : comkino_state_t K b j) : List K :=
  comkinoState.val.take b

/-- Modelled from the spec: the base-velocity (twist) block of the state, the
`BASE_COORDINATE_SIZE` coefficients that follow the pose. -/
def getComLocalVelocities {b j : Nat} (comkinoState : comkino_state_t K b j) : List K :=
  (comkinoState.val.drop b).take b

/-- Modelled from the spec: `getJointPositions` of `SwitchedModel.h`, which is not among the
sources: the joint-position block of the state, its trailing `JOINT_COORDINATE_SIZE`
coefficients. -/
def getJointPositions {b j : Nat} (comkinoState : comkino_state_t K b j) : List K :=
  comkinoState.val.drop (b + b)

/-- The collaborators of `ComKinoInitializer`, none of them among the sources:
`modeScheduleManagerPtr_->getContactFlags`, the free function `weightCompensatingInputs`, the
helper `getOrientation`, and the model `*comModelPtr_` (of type `M`; `F` is the type of the
contact flags). -/
structure ComKinoInitializer (K M F : Type) where
  comModelPtr_ : M
  getContactFlags : K → F
  weightCompensatingInputs : M → F → List K → List K
  getOrientation : List K → List K

variable [LinearOrderedField K]

/-- The method `ComKinoInitializer::compute(time, state, nextTime, input, nextState)`; the
result is the pair of the reference arguments `input` and `nextState` after the call. The
first line of the source converts `state` to the fixed-size `comkino_state_t`; the model takes
the state at that type. `nextState << a, b, c` after `resize(STATE_DIM)` fills the vector with
the three blocks in this order. -/
def ComKinoInitializer.compute {b j : Nat} (self : ComKinoInitializer K M F) (time : K)
    (state : comkino_state_t K b j) (_nextTime : K) : List K × List K :=
  let comkinoState := state
  let comPose := getComPose comkinoState
  let contactFlags := self.getContactFlags time
  let input := self.weightCompensatingInputs self.comModelPtr_ contactFlags
    (self.getOrientation comPose)
  let nextState := comPose ++ List.replicate b (0 : K) ++ getJointPositions comkinoState
  (input, nextState)

end Initializer

end switched_model


namespace ocs2.augmented

section PenaltyLemmas

variable {K : Type} [LinearOrderedField K]

theorem wFunc_pos (config : Config K) (l : K) (hs : 0 < config.scale) (hl : 0 < l) :
    0 < wFunc config l := by
  unfold wFunc
  positivity

theorem getValue_of_gt (log : K → K) (config : Config K) (t l h : K)
    (hv : config.relaxation < vFunc config l h) :
    getValue log config t l h = -vFunc config l h * log (1 + wFunc config l) := by
  simp [getValue, hv]

theorem getDerivative_of_gt (config : Config K) (t l h : K)
    (hv : config.relaxation < vFunc config l h) :
    getDerivative config t l h
      = -wFunc config l / (1 + vFunc config l h) * dldhFunc config l := by
  simp [getDerivative, hv]

theorem getDerivative_of_le (config : Config K) (t l h : K)
    (hv : vFunc config l h ≤ config.relaxation) :
    getDerivative config t l h
      = wFunc config l * (a_ config * (vFunc config l h - config.relaxation) + b_ config)
          * dldhFunc config l := by
  simp [getDerivative, not_lt.mpr hv]

end PenaltyLemmas

/-- C7: for `scale > 0` and `λ > 0`, `getSecondDerivative(t, λ, h)` is non-negative for every
constraint value `h`, on the log-barrier branch and on the quadratic branch alike. -/
theorem getSecondDerivative_nonneg {K : Type} [LinearOrderedField K] (config : Config K)
    (t l h : K) (hs : 0 < config.scale) (hl : 0 < l) :
    0 ≤ getSecondDerivative config t l h := by
  have hw : 0 < wFunc config l := wFunc_pos config l hs hl
  unfold getSecondDerivative
  simp only
  split_ifs
  · have h1 : 0 ≤ wFunc config l / ((1 + vFunc config l h) * (1 + vFunc config l h)) :=
      div_nonneg hw.le (mul_self_nonneg _)
    rw [mul_assoc]
    exact mul_nonneg h1 (mul_self_nonneg _)
  · have ha : 0 ≤ a_ config := by
      unfold a_
      positivity
    rw [mul_assoc]
    exact mul_nonneg (mul_nonneg hw.le ha) (mul_self_nonneg _)

theorem getSecondDerivative_nonneg_witness :
    0 ≤ getSecondDerivative (K := ℚ) Config.default 0 1 (-5) :=
  getSecondDerivative_nonneg Config.default 0 1 (-5) (by norm_num [Config.default])
    (by norm_num)

end ocs2.augmented

namespace ocs2.augmented

/-- C3: for `scale > 0`, `δ ≥ 0` and `λ > 0`, `getDerivative(t, λ, ·)` is continuous at the
branch boundary `h0 = δ·scale·λ`, and there the log-branch expression
`-w/(1+v)·(1/(scale·λ))` at `v = δ` equals the quadratic-branch expression
`w·(a·(v-δ)+b)·(1/(scale·λ))` at `v = δ`, where `a = 1/(1+δ)²` and `b = -1/(1+δ)`. -/
theorem getDerivative_continuousAt_boundary (config : Config ℝ) (t l : ℝ)
    (hs : 0 < config.scale) (hd : 0 ≤ config.relaxation) (hl : 0 < l) :
    ContinuousAt (fun h => getDerivative config t l h) (config.relaxation * config.scale * l)
      ∧ vFunc config l (config.relaxation * config.scale * l) = config.relaxation
      ∧ -wFunc config l / (1 + config.relaxation) * dldhFunc config l
          = wFunc config l * (a_ config * (config.relaxation - config.relaxation) + b_ config)
              * dldhFunc config l
      ∧ a_ config = 1 / (1 + config.relaxation) ^ 2
      ∧ b_ config = -1 / (1 + config.relaxation) := by
  have hc : 0 < config.scale * l := mul_pos hs hl
  have h1 : (1 + config.relaxation) ≠ 0 := by linarith
  have hv0 : vFunc config l (config.relaxation * config.scale * l) = config.relaxation := by
    unfold vFunc
    rw [mul_assoc]
    exact mul_div_cancel_right₀ _ hc.ne.symm
  have hbranch : -wFunc config l / (1 + config.relaxation) * dldhFunc config l
      = wFunc config l * (a_ config * (config.relaxation - config.relaxation) + b_ config)
          * dldhFunc config l := by
    unfold b_
    rw [sub_self, mul_zero, zero_add]
    ring
  refine ⟨?_, hv0, hbranch, rfl, rfl⟩
  -- the two branch expressions as functions of `h`
  have hlog : ContinuousAt
      (fun h => -wFunc config l / (1 + vFunc config l h) * dldhFunc config l)
      (config.relaxation * config.scale * l) := by
    have hden : ContinuousAt (fun h => 1 + vFunc config l h)
        (config.relaxation * config.scale * l) := by
      unfold vFunc
      fun_prop
    have hne : (1 + vFunc config l (config.relaxation * config.scale * l)) ≠ 0 := by
      rw [hv0]
      exact h1
    exact (continuousAt_const.div hden hne).mul continuousAt_const
  have hquad : ContinuousAt
      (fun h => wFunc config l
        * (a_ config * (vFunc config l h - config.relaxation) + b_ config) * dldhFunc config l)
      (config.relaxation * config.scale * l) := by
    unfold vFunc
    fun_prop
  rw [continuousAt_iff_continuous_left_right]
  constructor
  · refine hquad.continuousWithinAt.congr (fun y hy => ?_) ?_
    · apply getDerivative_of_le
      unfold vFunc
      rw [div_le_iff₀ hc, ← mul_assoc]
      exact hy
    · apply getDerivative_of_le
      exact hv0.le
  · refine hlog.continuousWithinAt.congr (fun y hy => ?_) ?_
    · rcases eq_or_lt_of_le (Set.mem_Ici.mp hy) with heq | hlt
      · rw [← heq, getDerivative_of_le config t l _ hv0.le, hv0]
        exact hbranch.symm
      · apply getDerivative_of_gt
        unfold vFunc
        rw [lt_div_iff₀ hc, ← mul_assoc]
        exact hlt
    · rw [getDerivative_of_le config t l _ hv0.le, hv0]
      exact hbranch.symm

theorem getDerivative_continuousAt_boundary_witness :
    ContinuousAt (fun h => getDerivative (⟨100, 1 / 100, 0⟩ : Config ℝ) 0 2 h)
        (1 / 100 * 100 * 2)
      ∧ vFunc (⟨100, 1 / 100, 0⟩ : Config ℝ) 2 (1 / 100 * 100 * 2) = 1 / 100
      ∧ -wFunc (⟨100, 1 / 100, 0⟩ : Config ℝ) 2 / (1 + 1 / 100)
            * dldhFunc (⟨100, 1 / 100, 0⟩ : Config ℝ) 2
          = wFunc (⟨100, 1 / 100, 0⟩ : Config ℝ) 2
              * (a_ (⟨100, 1 / 100, 0⟩ : Config ℝ) * (1 / 100 - 1 / 100)
                  + b_ (⟨100, 1 / 100, 0⟩ : Config ℝ))
              * dldhFunc (⟨100, 1 / 100, 0⟩ : Config ℝ) 2
      ∧ a_ (⟨100, 1 / 100, 0⟩ : Config ℝ) = 1 / (1 + 1 / 100) ^ 2
      ∧ b_ (⟨100, 1 / 100, 0⟩ : Config ℝ) = -1 / (1 + 1 / 100) :=
  getDerivative_continuousAt_boundary ⟨100, 1 / 100, 0⟩ 0 2 (by norm_num) (by norm_num)
    (by norm_num)

end ocs2.augmented

namespace ocs2.augmented

theorem log_four : Real.log 4 = 2 * Real.log 2 := by
  have h : (4 : ℝ) = 2 ^ 2 := by norm_num
  rw [h, Real.log_pow]
  norm_num

/-- Near any `h > 0`, with `scale = 1`, `δ = 0` and `λ = 1`, `getValue` is the linear function
`h ↦ -h·log 2`. -/
theorem getValue_unit_eventuallyEq (y : ℝ) (hy : 0 < y) :
    (fun h => getValue Real.log (⟨1, 0, 0⟩ : Config ℝ) 0 1 h)
      =ᶠ[nhds y] fun h => -h * Real.log 2 := by
  filter_upwards [lt_mem_nhds hy] with h hh
  rw [getValue_of_gt]
  · simp only [vFunc, wFunc]
    norm_num
  · simp only [vFunc]
    norm_num
    exact hh

/-- C4: at `scale = 1`, `δ = 0`, `λ = 1`, `h = 3` (so `v = 3 > δ`, `w = 1`) `getValue` returns
`-v·ln(1+w) = -3·ln 2`, whereas `-w·ln(1+v)` is `-ln 4 = -2·ln 2`; the two differ. -/
theorem getValue_log_branch_swapped :
    vFunc (⟨1, 0, 0⟩ : Config ℝ) 1 3 > 0
      ∧ getValue Real.log (⟨1, 0, 0⟩ : Config ℝ) 0 1 3 = -(3 * Real.log 2)
      ∧ -wFunc (⟨1, 0, 0⟩ : Config ℝ) 1 * Real.log (1 + vFunc (⟨1, 0, 0⟩ : Config ℝ) 1 3)
          = -(2 * Real.log 2)
      ∧ getValue Real.log (⟨1, 0, 0⟩ : Config ℝ) 0 1 3
          ≠ -wFunc (⟨1, 0, 0⟩ : Config ℝ) 1
              * Real.log (1 + vFunc (⟨1, 0, 0⟩ : Config ℝ) 1 3) := by
  have hv : vFunc (⟨1, 0, 0⟩ : Config ℝ) 1 3 = 3 := by norm_num [vFunc]
  have hw : wFunc (⟨1, 0, 0⟩ : Config ℝ) 1 = 1 := by norm_num [wFunc]
  have hval : getValue Real.log (⟨1, 0, 0⟩ : Config ℝ) 0 1 3 = -(3 * Real.log 2) := by
    rw [getValue_of_gt _ _ _ _ _ (by rw [hv]; norm_num), hv, hw]
    norm_num
  have hclaim : -wFunc (⟨1, 0, 0⟩ : Config ℝ) 1
      * Real.log (1 + vFunc (⟨1, 0, 0⟩ : Config ℝ) 1 3) = -(2 * Real.log 2) := by
    rw [hv, hw]
    norm_num
    exact log_four
  refine ⟨by rw [hv]; norm_num, hval, hclaim, ?_⟩
  rw [hval, hclaim]
  have hpos : 0 < Real.log 2 := Real.log_pos (by norm_num)
  intro h
  linarith

/-- C2: at `scale = 3`, `δ = 1`, `λ = 1` the branch boundary is `h0 = 3`. There the expression
of the branch `v > δ`, `-v·ln(1+w)`, is `-ln 4 = -2·ln 2`, the quadratic branch returns
`w·c = -3·ln 2`, and `getValue` is not continuous at `h0`. -/
theorem getValue_not_continuousAt_boundary :
    vFunc (⟨3, 1, 0⟩ : Config ℝ) 1 (1 * 3 * 1) = 1
      ∧ -(1 : ℝ) * Real.log (1 + wFunc (⟨3, 1, 0⟩ : Config ℝ) 1) = -(2 * Real.log 2)
      ∧ getValue Real.log (⟨3, 1, 0⟩ : Config ℝ) 0 1 (1 * 3 * 1) = -(3 * Real.log 2)
      ∧ ¬ ContinuousAt (fun h => getValue Real.log (⟨3, 1, 0⟩ : Config ℝ) 0 1 h)
          (1 * 3 * 1) := by
  have hw : wFunc (⟨3, 1, 0⟩ : Config ℝ) 1 = 3 := by norm_num [wFunc]
  have hlog : -(1 : ℝ) * Real.log (1 + wFunc (⟨3, 1, 0⟩ : Config ℝ) 1) = -(2 * Real.log 2) := by
    rw [hw]
    norm_num
    exact log_four
  have hval : getValue Real.log (⟨3, 1, 0⟩ : Config ℝ) 0 1 (1 * 3 * 1) = -(3 * Real.log 2) := by
    simp only [getValue, vFunc, wFunc, a_, b_, c_]
    norm_num
  refine ⟨by norm_num [vFunc], hlog, hval, ?_⟩
  intro hcont
  -- to the right of the boundary `getValue` is `h ↦ -(h/3)·ln 4`
  have hright : (fun h => getValue Real.log (⟨3, 1, 0⟩ : Config ℝ) 0 1 h)
      =ᶠ[nhdsWithin (1 * 3 * 1) (Set.Ioi (1 * 3 * 1))] fun h => -(h / 3) * Real.log 4 := by
    filter_upwards [self_mem_nhdsWithin] with h hh
    have hh3 : (3 : ℝ) < h := by
      have := Set.mem_Ioi.mp hh
      linarith
    rw [getValue_of_gt]
    · simp only [vFunc, wFunc]
      norm_num
    · simp only [vFunc]
      rw [lt_div_iff₀ (by norm_num)]
      linarith
  have hlin : Filter.Tendsto (fun h : ℝ => -(h / 3) * Real.log 4)
      (nhdsWithin (1 * 3 * 1) (Set.Ioi (1 * 3 * 1)))
      (nhds (-((1 * 3 * 1) / 3) * Real.log 4)) := by
    have hc : Continuous fun h : ℝ => -(h / 3) * Real.log 4 := by fun_prop
    exact hc.continuousAt.continuousWithinAt
  have hf : Filter.Tendsto (fun h => getValue Real.log (⟨3, 1, 0⟩ : Config ℝ) 0 1 h)
      (nhdsWithin (1 * 3 * 1) (Set.Ioi (1 * 3 * 1)))
      (nhds (getValue Real.log (⟨3, 1, 0⟩ : Config ℝ) 0 1 (1 * 3 * 1))) :=
    hcont.continuousWithinAt
  have heq := tendsto_nhds_unique (hf.congr' hright) hlin
  rw [hval, log_four] at heq
  have hpos : 0 < Real.log 2 := Real.log_pos (by norm_num)
  linarith

/-- C5: at `scale = 1`, `δ = 0`, `λ = 1`, `h = 1` (so `v = 1 ≠ δ`) the function
`h ↦ getValue(t, λ, h)` has derivative `-ln 2`, while `getDerivative(t, λ, h)` is `-1/2`;
`getDerivative` is not the derivative of `getValue` there. -/
theorem getValue_hasDerivAt_ne_getDerivative :
    vFunc (⟨1, 0, 0⟩ : Config ℝ) 1 1 ≠ 0
      ∧ HasDerivAt (fun h => getValue Real.log (⟨1, 0, 0⟩ : Config ℝ) 0 1 h) (-Real.log 2) 1
      ∧ getDerivative (⟨1, 0, 0⟩ : Config ℝ) 0 1 1 = -(1 / 2)
      ∧ ¬ HasDerivAt (fun h => getValue Real.log (⟨1, 0, 0⟩ : Config ℝ) 0 1 h)
          (getDerivative (⟨1, 0, 0⟩ : Config ℝ) 0 1 1) 1 := by
  have hlin : HasDerivAt (fun h : ℝ => -h * Real.log 2) (-Real.log 2) 1 := by
    have h := ((hasDerivAt_id (1 : ℝ)).neg).mul_const (Real.log 2)
    simpa using h
  have hval : HasDerivAt (fun h => getValue Real.log (⟨1, 0, 0⟩ : Config ℝ) 0 1 h)
      (-Real.log 2) 1 :=
    hlin.congr_of_eventuallyEq (getValue_unit_eventuallyEq 1 one_pos)
  have hder : getDerivative (⟨1, 0, 0⟩ : Config ℝ) 0 1 1 = -(1 / 2) := by
    simp only [getDerivative, vFunc, wFunc, dldhFunc]
    norm_num
  refine ⟨by norm_num [vFunc], hval, hder, ?_⟩
  intro h
  have heq := h.unique hval
  rw [hder] at heq
  have := Real.log_two_gt_d9
  norm_num at heq this
  linarith

/-- C6: at `scale = 1`, `δ = 0`, `λ = 1`, `h = 1` (so `v = 1 ≠ δ`) the second derivative of
`h ↦ getValue(t, λ, h)` is `0`, while `getSecondDerivative(t, λ, h)` is `1/4`. -/
theorem getValue_second_deriv_ne_getSecondDerivative :
    vFunc (⟨1, 0, 0⟩ : Config ℝ) 1 1 ≠ 0
      ∧ deriv (deriv fun h => getValue Real.log (⟨1, 0, 0⟩ : Config ℝ) 0 1 h) 1 = 0
      ∧ getSecondDerivative (⟨1, 0, 0⟩ : Config ℝ) 0 1 1 = 1 / 4 := by
  have hderiv : (deriv fun h => getValue Real.log (⟨1, 0, 0⟩ : Config ℝ) 0 1 h)
      =ᶠ[nhds 1] fun _ => -Real.log 2 := by
    filter_upwards [lt_mem_nhds (one_pos : (0 : ℝ) < 1)] with y hy
    have hlin : HasDerivAt (fun h : ℝ => -h * Real.log 2) (-Real.log 2) y := by
      have h := ((hasDerivAt_id y).neg).mul_const (Real.log 2)
      simpa using h
    exact (hlin.congr_of_eventuallyEq (getValue_unit_eventuallyEq y hy)).deriv
  refine ⟨by norm_num [vFunc], ?_, ?_⟩
  · rw [hderiv.deriv_eq]
    exact deriv_const _ _
  · simp only [getSecondDerivative, vFunc, wFunc, dldhFunc]
    norm_num

/-- C9: with the default configuration (`scale = 100`, `δ = 0.01`, `stepSize = 0`), `λ = 1` and
`h = 100` (so `v = 1 > δ`) `updateMultiplier` returns `λ/(1+v) = 1/2`, whereas
`max(stepSize·λ/(1+v), 1e-4)` is `1e-4`: the log-barrier branch is not scaled by the step
size. -/
theorem updateMultiplier_log_branch_ignores_stepSize :
    vFunc (Config.default : Config ℚ) 1 100 > (Config.default : Config ℚ).relaxation
      ∧ updateMultiplier (Config.default : Config ℚ) 0 1 100 = 1 / 2
      ∧ max ((Config.default : Config ℚ).stepSize * 1
          / (1 + vFunc (Config.default : Config ℚ) 1 100)) (1 / 10000) = 1 / 10000 := by
  refine ⟨?_, ?_, ?_⟩
  · norm_num [vFunc, Config.default]
  · simp only [updateMultiplier, vFunc, wFunc, dldhFunc, lambdaMin, Config.default]
    norm_num
  · norm_num [vFunc, Config.default]

end ocs2.augmented

namespace ocs2

section MetricsLemmas

variable {α K : Type} [LinearOrderedField K]

/-- A lambda that leaves its captured state alone makes `std::for_each` a no-op. -/
theorem forEach_of_state_unchanged {σ β γ : Type} (xs : List β) (g : σ → β → γ) (s : σ) :
    forEach xs (fun acc x => (acc, g acc x)) s = s := by
  unfold forEach
  induction xs with
  | nil => rfl
  | cons x xs ih => simpa only [List.foldl_cons] using ih

theorem sum_eq_sum_snd (termsValue : List (α × K)) :
    sum termsValue = (termsValue.map Prod.snd).sum := by
  have key : ∀ (xs : List (α × K)) (s : K),
      forEach xs (fun (s : K) v => (s + v.2, ())) s = s + (xs.map Prod.snd).sum := by
    intro xs
    induction xs with
    | nil => intro s; simp [forEach]
    | cons x xs ih =>
      intro s
      have h := ih (s + x.2)
      simp only [forEach, List.foldl_cons, List.map_cons, List.sum_cons] at h ⊢
      rw [h, add_assoc]
  unfold sum
  rw [key, zero_add]

/-- What `computeRolloutPerformanceIndex` returns when the `assert` holds. -/
theorem computeRolloutPerformanceIndex_of_length_eq (timeTrajectory : List K)
    (metrics : MetricsCollection α K)
    (hlen : timeTrajectory.length = metrics.intermediates.length) :
    computeRolloutPerformanceIndex timeTrajectory metrics = some
      ⟨metrics.final.cost
          + trapezoidalIntegration timeTrajectory (metrics.intermediates.map fun m => m.cost),
        0,
        squaredNorm metrics.final.stateEqConstraint
          + trapezoidalIntegration timeTrajectory (metrics.intermediates.map fun m =>
              squaredNorm m.stateEqConstraint + squaredNorm m.stateInputEqConstraint),
        sum metrics.final.stateEqLagrangian
          + trapezoidalIntegration timeTrajectory (metrics.intermediates.map fun m =>
              sum m.stateEqLagrangian + sum m.stateInputEqLagrangian),
        sum metrics.final.stateIneqLagrangian
          + trapezoidalIntegration timeTrajectory (metrics.intermediates.map fun m =>
              sum m.stateIneqLagrangian + sum m.stateInputIneqLagrangian)⟩ := by
  unfold computeRolloutPerformanceIndex
  simp only [hlen, ne_eq, not_true_eq_false, if_false, forEach_of_state_unchanged]

end MetricsLemmas

/-- C1: on the time trajectory `[0, 1]` with `final.cost = 1`, one pre-jump metric of cost `5`
and intermediate costs `2, 4`, `computeRolloutPerformanceIndex` returns `totalCost = 4`
(final cost plus trapezoidal integral), whereas final cost + sum of pre-jump costs +
trapezoidal integral is `9`. -/
theorem computeRolloutPerformanceIndex_totalCost_omits_preJumps :
    (computeRolloutPerformanceIndex (K := ℚ) (α := Unit) [0, 1]
        ⟨Metrics.ofCost 1 [], [Metrics.ofCost 5 []],
          [Metrics.ofCost 2 [], Metrics.ofCost 4 []]⟩).map (fun p => p.totalCost) = some 4
      ∧ (1 : ℚ) + ([Metrics.ofCost (α := Unit) (5 : ℚ) []].map fun m => m.cost).sum
          + trapezoidalIntegration [0, 1]
              ([Metrics.ofCost (α := Unit) (2 : ℚ) [], Metrics.ofCost 4 []].map fun m => m.cost)
        = 9 := by
  constructor
  · rw [computeRolloutPerformanceIndex_of_length_eq _ _ rfl]
    simp only [Option.map_some', Metrics.ofCost, trapezoidalIntegration, List.map_cons,
      List.map_nil, List.length_cons, List.length_nil, List.range_succ, List.range_zero]
    norm_num
  · simp only [Metrics.ofCost, trapezoidalIntegration, List.map_cons,
      List.map_nil, List.length_cons, List.length_nil, List.range_succ, List.range_zero]
    norm_num

/-- C10: on the time trajectory `[0, 1]` with `final.stateEqConstraint = [1]`, one pre-jump
metric with `stateEqConstraint = [2]` and two intermediate metrics with
`stateEqConstraint = [1]` and empty `stateInputEqConstraint`,
`computeRolloutPerformanceIndex` returns `equalityConstraintsSSE = 2`, whereas the final
squared norm + the pre-jump squared norms + the trapezoidal integral is `6`. -/
theorem computeRolloutPerformanceIndex_equalitySSE_omits_preJumps :
    (computeRolloutPerformanceIndex (K := ℚ) (α := Unit) [0, 1]
        ⟨Metrics.ofCost 0 [1], [Metrics.ofCost 0 [2]],
          [Metrics.ofCost 0 [1], Metrics.ofCost 0 [1]]⟩).map
        (fun p => p.equalityConstraintsSSE) = some 2
      ∧ squaredNorm [(1 : ℚ)]
          + ([Metrics.ofCost (α := Unit) (0 : ℚ) [2]].map
              fun m => squaredNorm m.stateEqConstraint).sum
          + trapezoidalIntegration [0, 1]
              ([Metrics.ofCost (α := Unit) (0 : ℚ) [1], Metrics.ofCost 0 [1]].map fun m =>
                squaredNorm m.stateEqConstraint + squaredNorm m.stateInputEqConstraint)
        = 6 := by
  constructor
  · rw [computeRolloutPerformanceIndex_of_length_eq _ _ rfl]
    simp only [Option.map_some', Metrics.ofCost, trapezoidalIntegration, squaredNorm,
      List.map_cons, List.map_nil, List.length_cons, List.length_nil, List.range_succ,
      List.range_zero]
    norm_num
  · simp only [Metrics.ofCost, trapezoidalIntegration, squaredNorm, List.map_cons,
      List.map_nil, List.length_cons, List.length_nil, List.range_succ, List.range_zero]
    norm_num

end ocs2

namespace ocs2

section ControllerLemmas

variable {G K : Type}

theorem foldl_set_range_length {β : Type} (f : Nat → β) (l : List β) (m : Nat) :
    ((List.range m).foldl (fun acc k => acc.set k (f k)) l).length = l.length := by
  induction m with
  | zero => rfl
  | succ m ih => simp [List.range_succ, List.foldl_append, ih]

theorem foldl_set_range_getElemOpt {β : Type} (f : Nat → β) (l : List β) (m i : Nat) :
    ((List.range m).foldl (fun acc k => acc.set k (f k)) l)[i]?
      = if i < m ∧ i < l.length then some (f i) else l[i]? := by
  induction m with
  | zero => simp
  | succ m ih =>
    rw [List.range_succ, List.foldl_append, List.foldl_cons, List.foldl_nil,
      List.getElem?_set, ih, foldl_set_range_length]
    by_cases h1 : m = i
    · subst h1
      by_cases h2 : m < l.length
      · simp [h2]
      · simp [h2, List.getElem?_eq_none (not_lt.mp h2)]
    · have h3 : i < m + 1 ↔ i < m := by omega
      simp [h1, h3]

/-- The loop of `incrementController` only touches `biasArray_`. -/
theorem foldl_biasArray_ (f : Nat → List K) (xs : List Nat) (c : LinearController G K) :
    xs.foldl (fun (c : LinearController G K) k =>
        { c with biasArray_ := c.biasArray_.set k (f k) }) c
      = { c with biasArray_ := xs.foldl (fun acc k => acc.set k (f k)) c.biasArray_ } := by
  induction xs generalizing c with
  | nil => rfl
  | cons x xs ih => rw [List.foldl_cons, ih, List.foldl_cons]

theorem resize_length {β : Type} (xs : List β) (n : Nat) (d : β) :
    (resize xs n d).length = n := by
  unfold resize
  simp
  omega

/-- The bias array that `incrementController` leaves, sample by sample. -/
theorem incrementController_biasArray_getElemOpt [LinearOrderedField K] (clear : LinearController G K → LinearController G K)
    (stepLength : K) (unoptimizedController controller : LinearController G K) (k : Nat) :
    (incrementController clear stepLength unoptimizedController controller).biasArray_[k]?
      = if k < unoptimizedController.timeStamp_.length then
          some (vecAdd (unoptimizedController.biasArray_.getD k [])
            (scalarMul stepLength (unoptimizedController.deltaBiasArray_.getD k [])))
        else none := by
  unfold incrementController
  simp only [foldl_biasArray_, LinearController.size]
  rw [foldl_set_range_getElemOpt, resize_length]
  by_cases h : k < unoptimizedController.timeStamp_.length
  · simp [h]
  · simp only [h, and_self, if_false]
    apply List.getElem?_eq_none
    rw [resize_length]
    omega

theorem incrementController_timeStamp_ [LinearOrderedField K] (clear : LinearController G K → LinearController G K)
    (stepLength : K) (unoptimizedController controller : LinearController G K) :
    (incrementController clear stepLength unoptimizedController controller).timeStamp_
      = unoptimizedController.timeStamp_ := by
  unfold incrementController
  simp only [foldl_biasArray_]

theorem incrementController_gainArray_ [LinearOrderedField K] (clear : LinearController G K → LinearController G K)
    (stepLength : K) (unoptimizedController controller : LinearController G K) :
    (incrementController clear stepLength unoptimizedController controller).gainArray_
      = unoptimizedController.gainArray_ := by
  unfold incrementController
  simp only [foldl_biasArray_]

theorem incrementController_biasArray_eq_zipWith [LinearOrderedField K]
    (clear : LinearController G K → LinearController G K)
    (stepLength : K) (unoptimizedController controller : LinearController G K)
    (hb : unoptimizedController.timeStamp_.length = unoptimizedController.biasArray_.length)
    (hd : unoptimizedController.timeStamp_.length
      = unoptimizedController.deltaBiasArray_.length) :
    (incrementController clear stepLength unoptimizedController controller).biasArray_
      = List.zipWith (fun b d => vecAdd b (scalarMul stepLength d))
          unoptimizedController.biasArray_ unoptimizedController.deltaBiasArray_ := by
  apply List.ext_getElem?
  intro k
  rw [incrementController_biasArray_getElemOpt, List.getElem?_zipWith]
  by_cases h : k < unoptimizedController.timeStamp_.length
  · have h1 : k < unoptimizedController.biasArray_.length := hb ▸ h
    have h2 : k < unoptimizedController.deltaBiasArray_.length := hd ▸ h
    simp [h, List.getD_eq_getElem?_getD, List.getElem?_eq_getElem h1,
      List.getElem?_eq_getElem h2]
  · have h1 : unoptimizedController.biasArray_.length ≤ k := hb ▸ not_lt.mp h
    simp [h, List.getElem?_eq_none h1]

theorem vecAdd_scalarMul_zero [LinearOrderedField K] (b d : List K)
    (h : b.length = d.length) : vecAdd b (scalarMul 0 d) = b := by
  induction b generalizing d with
  | nil => simp [vecAdd]
  | cons x xs ih =>
    cases d with
    | nil => simp at h
    | cons y ys =>
      have hys : xs.length = ys.length := by simpa using h
      have := ih ys hys
      simp only [vecAdd, scalarMul, List.map_cons, List.zipWith_cons_cons] at this ⊢
      rw [this]
      simp

theorem vecAdd_scalarMul_one_vecSub [LinearOrderedField K] (target b : List K)
    (h : target.length = b.length) : vecAdd b (scalarMul 1 (vecSub target b)) = target := by
  induction target generalizing b with
  | nil => simp [vecAdd, vecSub, scalarMul]
  | cons x xs ih =>
    cases b with
    | nil => simp at h
    | cons y ys =>
      have hys : xs.length = ys.length := by simpa using h
      have := ih ys hys
      simp only [vecAdd, scalarMul, vecSub, List.map_cons, List.zipWith_cons_cons] at this ⊢
      rw [this]
      simp

theorem zipWith_vecAdd_scalarMul_zero [LinearOrderedField K] (bs ds : List (List K))
    (h : List.Forall₂ (fun b d => b.length = d.length) bs ds) :
    List.zipWith (fun b d => vecAdd b (scalarMul 0 d)) bs ds = bs := by
  induction h with
  | nil => rfl
  | cons hhead _ ih => rw [List.zipWith_cons_cons, ih, vecAdd_scalarMul_zero _ _ hhead]

theorem zipWith_vecAdd_scalarMul_one [LinearOrderedField K] (ts bs : List (List K))
    (h : List.Forall₂ (fun t b => t.length = b.length) ts bs) :
    List.zipWith (fun b d => vecAdd b (scalarMul 1 d)) bs (List.zipWith vecSub ts bs) = ts := by
  induction h with
  | nil => rfl
  | cons hhead _ ih =>
    rw [List.zipWith_cons_cons, List.zipWith_cons_cons, ih,
      vecAdd_scalarMul_one_vecSub _ _ hhead]

theorem sum_map_range_eq_finset_sum [LinearOrderedField K] (f : Nat → K) (m : Nat) :
    ((List.range m).map f).sum = Finset.sum (Finset.range m) f := by
  induction m with
  | zero => simp
  | succ m ih => simp [List.range_succ, Finset.sum_range_succ, ih]

end ControllerLemmas

/-- C12: for every step length and every baseline controller whose time stamps, biases and
bias increments have one common length `n`, `incrementController` leaves the time stamps and
the gains of the baseline, and `biasArray_[k] = baseline.biasArray_[k] +
stepLength * baseline.deltaBiasArray_[k]` for every `k < n`, whatever `clear()` does and
whatever the output controller held. -/
theorem incrementController_spec {G K : Type} [LinearOrderedField K]
    (clear : LinearController G K → LinearController G K) (stepLength : K)
    (unoptimizedController controller : LinearController G K) (n : Nat)
    (ht : unoptimizedController.timeStamp_.length = n)
    (hb : unoptimizedController.biasArray_.length = n)
    (hd : unoptimizedController.deltaBiasArray_.length = n) :
    (incrementController clear stepLength unoptimizedController controller).timeStamp_
        = unoptimizedController.timeStamp_
      ∧ (incrementController clear stepLength unoptimizedController controller).gainArray_
        = unoptimizedController.gainArray_
      ∧ ∀ k, k < n → ∃ b d, unoptimizedController.biasArray_[k]? = some b
          ∧ unoptimizedController.deltaBiasArray_[k]? = some d
          ∧ (incrementController clear stepLength unoptimizedController controller).biasArray_[k]?
              = some (vecAdd b (scalarMul stepLength d)) := by
  refine ⟨incrementController_timeStamp_ _ _ _ _, incrementController_gainArray_ _ _ _ _, ?_⟩
  intro k hk
  have h1 : k < unoptimizedController.biasArray_.length := hb ▸ hk
  have h2 : k < unoptimizedController.deltaBiasArray_.length := hd ▸ hk
  refine ⟨unoptimizedController.biasArray_[k], unoptimizedController.deltaBiasArray_[k],
    List.getElem?_eq_getElem h1, List.getElem?_eq_getElem h2, ?_⟩
  rw [incrementController_biasArray_getElemOpt, if_pos (ht ▸ hk)]
  simp [List.getD_eq_getElem?_getD, List.getElem?_eq_getElem h1, List.getElem?_eq_getElem h2]

theorem incrementController_spec_witness :
    (incrementController (G := Unit) (K := ℚ) id (1 / 2)
        ⟨[0, 1], [(), ()], [[1], [2]], [[2], [4]]⟩ ⟨[5], [], [[7]], []⟩).biasArray_
      = [[2], [4]] := by
  have h := incrementController_spec (G := Unit) (K := ℚ) id (1 / 2)
    ⟨[0, 1], [(), ()], [[1], [2]], [[2], [4]]⟩ ⟨[5], [], [[7]], []⟩ 2 rfl rfl rfl
  apply List.ext_getElem?
  intro k
  match k with
  | 0 =>
    obtain ⟨b, d, hb, hd, hr⟩ := h.2.2 0 (by norm_num)
    simp only [List.getElem?_cons_zero, Option.some.injEq] at hb hd
    subst hb hd
    rw [hr]
    norm_num [vecAdd, scalarMul]
  | 1 =>
    obtain ⟨b, d, hb, hd, hr⟩ := h.2.2 1 (by norm_num)
    simp only [List.getElem?_cons_succ, List.getElem?_cons_zero, Option.some.injEq] at hb hd
    subst hb hd
    rw [hr]
    norm_num [vecAdd, scalarMul]
  | k + 2 =>
    rw [incrementController_biasArray_getElemOpt]
    simp

/-- C13: for a baseline controller whose arrays have a common length and whose bias and
increment vectors have matching dimensions, `incrementController` with `stepLength = 0` yields
the baseline biases; with `stepLength = 1` and `deltaBiasArray_[k] = target_k -
baseline.biasArray_[k]` for every `k` it yields the biases `target_k`. -/
theorem incrementController_zero_and_one {G K : Type} [LinearOrderedField K]
    (clear : LinearController G K → LinearController G K)
    (unoptimizedController controller : LinearController G K) (target : List (List K))
    (ht : unoptimizedController.timeStamp_.length = unoptimizedController.biasArray_.length) :
    (List.Forall₂ (fun b d => b.length = d.length) unoptimizedController.biasArray_
          unoptimizedController.deltaBiasArray_
        → (incrementController clear 0 unoptimizedController controller).biasArray_
            = unoptimizedController.biasArray_)
      ∧ (List.Forall₂ (fun t b => t.length = b.length) target unoptimizedController.biasArray_
        → unoptimizedController.deltaBiasArray_
            = List.zipWith vecSub target unoptimizedController.biasArray_
        → (incrementController clear 1 unoptimizedController controller).biasArray_
            = target) := by
  constructor
  · intro hdim
    rw [incrementController_biasArray_eq_zipWith _ _ _ _ ht (ht.trans hdim.length_eq)]
    exact zipWith_vecAdd_scalarMul_zero _ _ hdim
  · intro hdim hdelta
    have hlen : unoptimizedController.deltaBiasArray_.length
        = unoptimizedController.biasArray_.length := by
      rw [hdelta, List.length_zipWith, hdim.length_eq, min_self]
    rw [incrementController_biasArray_eq_zipWith _ _ _ _ ht (ht.trans hlen.symm), hdelta]
    exact zipWith_vecAdd_scalarMul_one _ _ hdim

theorem incrementController_zero_and_one_witness :
    (incrementController (G := Unit) (K := ℚ) id 0
          ⟨[0, 1], [(), ()], [[1, 2], [3, 4]], [[8, 7], [5, 4]]⟩ ⟨[], [], [], []⟩).biasArray_
        = [[1, 2], [3, 4]]
      ∧ (incrementController (G := Unit) (K := ℚ) id 1
          ⟨[0, 1], [(), ()], [[1, 2], [3, 4]], [[8, 7], [5, 4]]⟩ ⟨[], [], [], []⟩).biasArray_
        = [[9, 9], [8, 8]] :=
  have h := incrementController_zero_and_one (G := Unit) (K := ℚ) id
    ⟨[0, 1], [(), ()], [[1, 2], [3, 4]], [[8, 7], [5, 4]]⟩ ⟨[], [], [], []⟩ [[9, 9], [8, 8]] rfl
  ⟨h.1 (List.Forall₂.cons rfl (List.Forall₂.cons rfl List.Forall₂.nil)),
    h.2 (List.Forall₂.cons rfl (List.Forall₂.cons rfl List.Forall₂.nil))
      (by norm_num [vecSub])⟩

/-- C14: for a controller whose `deltaBiasArray_` has the length `n` of `timeStamp_`,
`computeControllerUpdateIS` returns the sum over `k = 0 .. n-2` of
`0.5·(‖δ_k‖² + ‖δ_{k+1}‖²)·(t_{k+1} - t_k)`, and `0` when there are fewer than two time
samples. -/
theorem computeControllerUpdateIS_eq {G K : Type} [LinearOrderedField K]
    (controller : LinearController G K)
    (hlen : controller.deltaBiasArray_.length = controller.timeStamp_.length) :
    computeControllerUpdateIS controller
        = Finset.sum (Finset.range (controller.timeStamp_.length - 1)) (fun k =>
            1 / 2 * (squaredNorm (controller.deltaBiasArray_.getD k [])
                + squaredNorm (controller.deltaBiasArray_.getD (k + 1) []))
              * (controller.timeStamp_.getD (k + 1) 0 - controller.timeStamp_.getD k 0))
      ∧ (controller.timeStamp_.length < 2 → computeControllerUpdateIS controller = 0) := by
  have hnorm : ∀ k, (controller.deltaBiasArray_.map fun b => squaredNorm b).getD k 0
      = squaredNorm (controller.deltaBiasArray_.getD k []) := by
    intro k
    by_cases hk : k < controller.deltaBiasArray_.length
    · simp [List.getD_eq_getElem?_getD, List.getElem?_eq_getElem hk]
    · simp [List.getD_eq_getElem?_getD, List.getElem?_eq_none (not_lt.mp hk), squaredNorm]
  have hmain : computeControllerUpdateIS controller
      = Finset.sum (Finset.range (controller.timeStamp_.length - 1)) (fun k =>
          1 / 2 * (squaredNorm (controller.deltaBiasArray_.getD k [])
              + squaredNorm (controller.deltaBiasArray_.getD (k + 1) []))
            * (controller.timeStamp_.getD (k + 1) 0 - controller.timeStamp_.getD k 0)) := by
    unfold computeControllerUpdateIS transform trapezoidalIntegration
    simp only [hlen, List.drop_replicate, Nat.sub_self, List.replicate_zero, List.append_nil]
    rw [sum_map_range_eq_finset_sum]
    apply Finset.sum_congr rfl
    intro k _
    rw [hnorm, hnorm]
  refine ⟨hmain, fun hlt => ?_⟩
  have h0 : controller.timeStamp_.length - 1 = 0 := by omega
  rw [hmain, h0, Finset.range_zero, Finset.sum_empty]

theorem computeControllerUpdateIS_eq_witness :
    computeControllerUpdateIS (G := Unit) (K := ℚ) ⟨[0, 1, 3], [], [], [[1], [1, 1], [2]]⟩
      = 15 / 2 := by
  rw [(computeControllerUpdateIS_eq (G := Unit) (K := ℚ)
    ⟨[0, 1, 3], [], [], [[1], [1, 1], [2]]⟩ rfl).1]
  simp only [List.length_cons, List.length_nil, Finset.sum_range_succ, Finset.range_zero,
    Finset.sum_empty, squaredNorm]
  norm_num

/-- C15: `rolloutTrajectory` throws the error "System became unstable during the rollout."
if and only if the final state that `rollout.run` returns has a non-finite coefficient, and it
returns a value if and only if every coefficient of that state is finite. -/
theorem rolloutTrajectory_throws_iff {C K : Type} [LinearOrderedField K]
    (run : K → List K → K → C → List K → List K → List Nat → List (List K) → List (List K)
      → RunResult K)
    (timePeriod : K × K) (initState : List K) (modeSchedule : ModeSchedule K)
    (primalSolution : PrimalSolution C K) :
    ((rolloutTrajectory run timePeriod initState modeSchedule primalSolution).2
          = Except.error "System became unstable during the rollout."
        ↔ ∃ c ∈ (run timePeriod.1 initState timePeriod.2 primalSolution.controllerPtr_
            modeSchedule.eventTimes primalSolution.timeTrajectory_
            primalSolution.postEventIndices_ primalSolution.stateTrajectory_
            primalSolution.inputTrajectory_).xCurrent, c = none)
      ∧ ((∃ dt, (rolloutTrajectory run timePeriod initState modeSchedule primalSolution).2
          = Except.ok dt)
        ↔ ∀ c ∈ (run timePeriod.1 initState timePeriod.2 primalSolution.controllerPtr_
            modeSchedule.eventTimes primalSolution.timeTrajectory_
            primalSolution.postEventIndices_ primalSolution.stateTrajectory_
            primalSolution.inputTrajectory_).xCurrent, c ≠ none) := by
  unfold rolloutTrajectory
  simp only
  by_cases hfin : allFinite (run timePeriod.1 initState timePeriod.2
      primalSolution.controllerPtr_ modeSchedule.eventTimes primalSolution.timeTrajectory_
      primalSolution.postEventIndices_ primalSolution.stateTrajectory_
      primalSolution.inputTrajectory_).xCurrent = true
  · have hall := hfin
    simp only [allFinite, List.all_eq_true, Option.isSome_iff_ne_none] at hall
    simp only [hfin, Bool.not_true, Bool.false_eq_true, if_false]
    constructor
    · constructor
      · intro h
        cases h
      · rintro ⟨c, hc, hnone⟩
        exact absurd hnone (hall c hc)
    · exact ⟨fun _ => hall, fun _ => ⟨_, rfl⟩⟩
  · have hex : ∃ c ∈ (run timePeriod.1 initState timePeriod.2
        primalSolution.controllerPtr_ modeSchedule.eventTimes primalSolution.timeTrajectory_
        primalSolution.postEventIndices_ primalSolution.stateTrajectory_
        primalSolution.inputTrajectory_).xCurrent, c = none := by
      by_contra hno
      apply hfin
      simp only [allFinite, List.all_eq_true, Option.isSome_iff_ne_none]
      intro c hc hnone
      exact hno ⟨c, hc, hnone⟩
    simp only [Bool.not_eq_true] at hfin
    simp only [hfin, Bool.not_false, if_true]
    constructor
    · exact ⟨fun _ => hex, fun _ => trivial⟩
    · constructor
      · rintro ⟨dt, hdt⟩
        cases hdt
      · intro hall
        obtain ⟨c, hc, hnone⟩ := hex
        exact absurd hnone (hall c hc)

/-- C11: on the time trajectory `[0, 1]` with final Lagrangian penalties `1` (equality) and
`2` (inequality), one pre-jump metric with penalties `5` and `7`, and two intermediate
metrics without terms, `computeRolloutPerformanceIndex` returns
`equalityLagrangiansPenalty = 1` and `inequalityLagrangiansPenalty = 2`, whereas adding the
pre-jump sums gives `6` and `9`. -/
theorem computeRolloutPerformanceIndex_penalties_omit_preJumps :
    (computeRolloutPerformanceIndex (K := ℚ) (α := Unit) [0, 1]
        ⟨⟨0, [], [], [((), 1)], [((), 2)], [], []⟩,
          [⟨0, [], [], [((), 5)], [((), 7)], [], []⟩],
          [Metrics.ofCost 0 [], Metrics.ofCost 0 []]⟩).map
        (fun p => (p.equalityLagrangiansPenalty, p.inequalityLagrangiansPenalty))
        = some (1, 2)
      ∧ sum [((), (1 : ℚ))]
          + ([(⟨0, [], [], [((), 5)], [((), 7)], [], []⟩ : Metrics Unit ℚ)].map
              fun m => sum m.stateEqLagrangian).sum
          + trapezoidalIntegration [0, 1]
              ([Metrics.ofCost (α := Unit) (0 : ℚ) [], Metrics.ofCost 0 []].map fun m =>
                sum m.stateEqLagrangian + sum m.stateInputEqLagrangian)
        = 6
      ∧ sum [((), (2 : ℚ))]
          + ([(⟨0, [], [], [((), 5)], [((), 7)], [], []⟩ : Metrics Unit ℚ)].map
              fun m => sum m.stateIneqLagrangian).sum
          + trapezoidalIntegration [0, 1]
              ([Metrics.ofCost (α := Unit) (0 : ℚ) [], Metrics.ofCost 0 []].map fun m =>
                sum m.stateIneqLagrangian + sum m.stateInputIneqLagrangian)
        = 9 := by
  refine ⟨?_, ?_, ?_⟩
  · rw [computeRolloutPerformanceIndex_of_length_eq _ _ rfl]
    simp only [Option.map_some', Metrics.ofCost, trapezoidalIntegration, sum_eq_sum_snd,
      List.map_cons, List.map_nil, List.length_cons, List.length_nil, List.range_succ,
      List.range_zero]
    norm_num
  · simp only [Metrics.ofCost, trapezoidalIntegration, sum_eq_sum_snd, List.map_cons,
      List.map_nil, List.length_cons, List.length_nil, List.range_succ, List.range_zero]
    norm_num
  · simp only [Metrics.ofCost, trapezoidalIntegration, sum_eq_sum_snd, List.map_cons,
      List.map_nil, List.length_cons, List.length_nil, List.range_succ, List.range_zero]
    norm_num

end ocs2

namespace ocs2

section RolloutMetricsLemmas

variable {P D C α K : Type} [LinearOrderedField K] [Inhabited D]
  (problemInterface : ProblemInterface P D α K) (primalSolution : PrimalSolution C K)
  (dualSolution : DualSolution D)

theorem computeRolloutMetricsStep_final (s : MetricsLoopState P α K) (k : Nat) :
    (computeRolloutMetricsStep problemInterface primalSolution dualSolution s k).metrics.final
      = s.metrics.final := by
  unfold computeRolloutMetricsStep
  simp only
  split_ifs <;> rfl

theorem computeRolloutMetricsStep_intermediates (s : MetricsLoopState P α K) (k : Nat) :
    (computeRolloutMetricsStep problemInterface primalSolution dualSolution s
        k).metrics.intermediates
      = s.metrics.intermediates ++
        [problemInterface.computeIntermediateMetrics
          (problemInterface.request rolloutRequest (primalSolution.timeTrajectory_.getD k 0)
            (primalSolution.stateTrajectory_.getD k [])
            (primalSolution.inputTrajectory_.getD k []) s.problem)
          (primalSolution.timeTrajectory_.getD k 0) (primalSolution.stateTrajectory_.getD k [])
          (primalSolution.inputTrajectory_.getD k [])
          (dualSolution.intermediates.getD k default)] := by
  unfold computeRolloutMetricsStep
  simp only
  split_ifs <;> rfl

theorem computeRolloutMetricsStep_of_event (s : MetricsLoopState P α K) (k : Nat)
    (h : s.nextPostEventIndexItr ≠ primalSolution.postEventIndices_.length
      ∧ k + 1 = primalSolution.postEventIndices_.getD s.nextPostEventIndexItr 0) :
    (computeRolloutMetricsStep problemInterface primalSolution dualSolution s
          k).nextPostEventIndexItr = s.nextPostEventIndexItr + 1
      ∧ (computeRolloutMetricsStep problemInterface primalSolution dualSolution s
          k).metrics.preJumps
        = s.metrics.preJumps ++
          [problemInterface.computePreJumpMetrics
            (problemInterface.requestPreJump rolloutRequest
              (primalSolution.timeTrajectory_.getD k 0)
              (primalSolution.stateTrajectory_.getD k [])
              (problemInterface.request rolloutRequest
                (primalSolution.timeTrajectory_.getD k 0)
                (primalSolution.stateTrajectory_.getD k [])
                (primalSolution.inputTrajectory_.getD k []) s.problem))
            (primalSolution.timeTrajectory_.getD k 0)
            (primalSolution.stateTrajectory_.getD k [])
            (dualSolution.preJumps.getD s.nextPostEventIndexItr default)] := by
  simp only [computeRolloutMetricsStep, if_pos h, and_self]

theorem computeRolloutMetricsStep_of_no_event (s : MetricsLoopState P α K) (k : Nat)
    (h : ¬ (s.nextPostEventIndexItr ≠ primalSolution.postEventIndices_.length
      ∧ k + 1 = primalSolution.postEventIndices_.getD s.nextPostEventIndexItr 0)) :
    (computeRolloutMetricsStep problemInterface primalSolution dualSolution s
          k).nextPostEventIndexItr = s.nextPostEventIndexItr
      ∧ (computeRolloutMetricsStep problemInterface primalSolution dualSolution s
          k).metrics.preJumps = s.metrics.preJumps := by
  simp only [computeRolloutMetricsStep, if_neg h, and_self]

/-- After `k` passes of the loop there are `k` intermediate metrics, the `i`-th evaluated at
sample `i` right after the request at that sample, and `final` is untouched. -/
theorem computeRolloutMetrics_loop_intermediates (s0 : MetricsLoopState P α K)
    (h0 : s0.metrics.intermediates = []) (k : Nat) :
    ((List.range k).foldl
          (computeRolloutMetricsStep problemInterface primalSolution dualSolution)
          s0).metrics.final = s0.metrics.final
      ∧ ((List.range k).foldl
          (computeRolloutMetricsStep problemInterface primalSolution dualSolution)
          s0).metrics.intermediates.length = k
      ∧ ∀ i, i < k → ∃ problem, ((List.range k).foldl
            (computeRolloutMetricsStep problemInterface primalSolution dualSolution)
            s0).metrics.intermediates[i]?
          = some (problemInterface.computeIntermediateMetrics
              (problemInterface.request rolloutRequest
                (primalSolution.timeTrajectory_.getD i 0)
                (primalSolution.stateTrajectory_.getD i [])
                (primalSolution.inputTrajectory_.getD i []) problem)
              (primalSolution.timeTrajectory_.getD i 0)
              (primalSolution.stateTrajectory_.getD i [])
              (primalSolution.inputTrajectory_.getD i [])
              (dualSolution.intermediates.getD i default)) := by
  induction k with
  | zero => exact ⟨rfl, by simp [h0], fun i hi => absurd hi (Nat.not_lt_zero i)⟩
  | succ k ih =>
    obtain ⟨ihf, ihl, ihi⟩ := ih
    rw [List.range_succ, List.foldl_append, List.foldl_cons, List.foldl_nil]
    generalize (List.range k).foldl
      (computeRolloutMetricsStep problemInterface primalSolution dualSolution) s0 = s
      at ihf ihl ihi
    refine ⟨?_, ?_, ?_⟩
    · rw [computeRolloutMetricsStep_final, ihf]
    · rw [computeRolloutMetricsStep_intermediates, List.length_append, ihl]
      rfl
    · intro i hi
      rw [computeRolloutMetricsStep_intermediates]
      rcases Nat.lt_succ_iff_lt_or_eq.mp hi with hlt | heq
      · obtain ⟨problem, hp⟩ := ihi i hlt
        exact ⟨problem, by rw [List.getElem?_append_left (by rw [ihl]; exact hlt), hp]⟩
      · subst heq
        refine ⟨s.problem, ?_⟩
        rw [List.getElem?_append_right (by rw [ihl]), ihl, Nat.sub_self]
        rfl

/-- The loop invariant of the walk through `postEventIndices`, for strictly increasing
indices that are at least `1`: after `k` passes the iterator has passed exactly the indices
`≤ k`, and one pre-jump metric was pushed for each of them, at the sample before the jump. -/
theorem computeRolloutMetrics_loop_preJumps (s0 : MetricsLoopState P α K)
    (h0 : s0.metrics.preJumps = []) (hitr : s0.nextPostEventIndexItr = 0)
    (hsorted : primalSolution.postEventIndices_.Pairwise (fun a b => a < b))
    (hpos : ∀ q ∈ primalSolution.postEventIndices_, 1 ≤ q) (k : Nat) :
    ((List.range k).foldl
          (computeRolloutMetricsStep problemInterface primalSolution dualSolution)
          s0).nextPostEventIndexItr ≤ primalSolution.postEventIndices_.length
      ∧ (((List.range k).foldl
          (computeRolloutMetricsStep problemInterface primalSolution dualSolution)
          s0).nextPostEventIndexItr < primalSolution.postEventIndices_.length
        → k < primalSolution.postEventIndices_.getD ((List.range k).foldl
          (computeRolloutMetricsStep problemInterface primalSolution dualSolution)
          s0).nextPostEventIndexItr 0)
      ∧ ((List.range k).foldl
          (computeRolloutMetricsStep problemInterface primalSolution dualSolution)
          s0).metrics.preJumps.length
        = ((List.range k).foldl
          (computeRolloutMetricsStep problemInterface primalSolution dualSolution)
          s0).nextPostEventIndexItr
      ∧ ∀ i, i < ((List.range k).foldl
          (computeRolloutMetricsStep problemInterface primalSolution dualSolution)
          s0).nextPostEventIndexItr → ∃ problem, ((List.range k).foldl
            (computeRolloutMetricsStep problemInterface primalSolution dualSolution)
            s0).metrics.preJumps[i]?
          = some (problemInterface.computePreJumpMetrics
              (problemInterface.requestPreJump rolloutRequest
                (primalSolution.timeTrajectory_.getD
                  (primalSolution.postEventIndices_.getD i 0 - 1) 0)
                (primalSolution.stateTrajectory_.getD
                  (primalSolution.postEventIndices_.getD i 0 - 1) []) problem)
              (primalSolution.timeTrajectory_.getD
                (primalSolution.postEventIndices_.getD i 0 - 1) 0)
              (primalSolution.stateTrajectory_.getD
                (primalSolution.postEventIndices_.getD i 0 - 1) [])
              (dualSolution.preJumps.getD i default)) := by
  induction k with
  | zero =>
    refine ⟨by simp [hitr], ?_, by simp [h0, hitr], ?_⟩
    · intro hlt
      simp only [List.range_zero, List.foldl_nil, hitr] at hlt ⊢
      rw [List.getD_eq_getElem _ _ hlt]
      exact hpos _ (List.getElem_mem _)
    · intro i hi
      simp [hitr] at hi
  | succ k ih =>
    obtain ⟨ihle, ihnext, ihlen, ihpre⟩ := ih
    rw [List.range_succ, List.foldl_append, List.foldl_cons, List.foldl_nil]
    generalize (List.range k).foldl
      (computeRolloutMetricsStep problemInterface primalSolution dualSolution) s0 = s
      at ihle ihnext ihlen ihpre
    by_cases hev : s.nextPostEventIndexItr ≠ primalSolution.postEventIndices_.length
        ∧ k + 1 = primalSolution.postEventIndices_.getD s.nextPostEventIndexItr 0
    · obtain ⟨hi1, hp1⟩ := computeRolloutMetricsStep_of_event problemInterface primalSolution
        dualSolution s k hev
      have hlt : s.nextPostEventIndexItr < primalSolution.postEventIndices_.length :=
        lt_of_le_of_ne ihle hev.1
      rw [hi1, hp1]
      refine ⟨hlt, ?_, by rw [List.length_append, ihlen]; rfl, ?_⟩
      · intro hlt2
        have hpair := List.pairwise_iff_getElem.mp hsorted s.nextPostEventIndexItr
          (s.nextPostEventIndexItr + 1) hlt hlt2 (Nat.lt_succ_self _)
        rw [List.getD_eq_getElem _ _ hlt2]
        have hk := hev.2
        rw [List.getD_eq_getElem _ _ hlt] at hk
        omega
      · intro i hi
        rcases Nat.lt_succ_iff_lt_or_eq.mp hi with hlti | heq
        · obtain ⟨problem, hp⟩ := ihpre i hlti
          exact ⟨problem, by rw [List.getElem?_append_left (by rw [ihlen]; exact hlti), hp]⟩
        · subst heq
          refine ⟨problemInterface.request rolloutRequest
            (primalSolution.timeTrajectory_.getD k 0)
            (primalSolution.stateTrajectory_.getD k [])
            (primalSolution.inputTrajectory_.getD k []) s.problem, ?_⟩
          rw [List.getElem?_append_right (by rw [ihlen]), ihlen, Nat.sub_self, ← hev.2,
            Nat.add_sub_cancel]
          rfl
    · obtain ⟨hi1, hp1⟩ := computeRolloutMetricsStep_of_no_event problemInterface
        primalSolution dualSolution s k hev
      rw [hi1, hp1]
      refine ⟨ihle, ?_, ihlen, ihpre⟩
      intro hlt
      have hk := ihnext hlt
      have hne : k + 1 ≠ primalSolution.postEventIndices_.getD s.nextPostEventIndexItr 0 :=
        fun heq => hev ⟨hlt.ne, heq⟩
      omega

end RolloutMetricsLemmas

end ocs2

namespace ocs2

section RolloutMetricsResult

variable {P D C α K : Type} [LinearOrderedField K] [Inhabited D]
  (problemInterface : ProblemInterface P D α K) (problem : P)
  (primalSolution : PrimalSolution C K) (dualSolution : DualSolution D)
  (metrics : MetricsCollection α K)

theorem computeRolloutMetrics_preJumps_eq :
    (computeRolloutMetrics problemInterface problem primalSolution dualSolution
        metrics).2.preJumps
      = (computeRolloutMetricsLoop problemInterface problem primalSolution dualSolution
          metrics).metrics.preJumps := by
  unfold computeRolloutMetrics
  simp only
  split_ifs <;> rfl

theorem computeRolloutMetrics_intermediates_eq :
    (computeRolloutMetrics problemInterface problem primalSolution dualSolution
        metrics).2.intermediates
      = (computeRolloutMetricsLoop problemInterface problem primalSolution dualSolution
          metrics).metrics.intermediates := by
  unfold computeRolloutMetrics
  simp only
  split_ifs <;> rfl

end RolloutMetricsResult

/-- C16: for a primal solution with `N` time samples and `N` states whose post-event indices
`p_0 < p_1 < … < p_{m-1}` are strictly increasing and lie in `[1, N-1]`, and a dual solution
with at least `m` pre-jump entries, `computeRolloutMetrics` produces exactly `m` pre-jump
metrics, the `i`-th being `computePreJumpMetrics` at the sample before the jump,
`(t[p_i - 1], x[p_i - 1])`, with `dualSolution.preJumps[i]`, evaluated on the problem right
after `requestPreJump` at that sample. -/
theorem computeRolloutMetrics_preJumps {P D C α K : Type} [LinearOrderedField K] [Inhabited D]
    (problemInterface : ProblemInterface P D α K) (problem : P)
    (primalSolution : PrimalSolution C K) (dualSolution : DualSolution D)
    (metrics : MetricsCollection α K)
    (hx : primalSolution.stateTrajectory_.length = primalSolution.timeTrajectory_.length)
    (hsorted : primalSolution.postEventIndices_.Pairwise (fun a b => a < b))
    (hrange : ∀ q ∈ primalSolution.postEventIndices_,
      1 ≤ q ∧ q ≤ primalSolution.timeTrajectory_.length - 1)
    (hdual : primalSolution.postEventIndices_.length ≤ dualSolution.preJumps.length) :
    (computeRolloutMetrics problemInterface problem primalSolution dualSolution
          metrics).2.preJumps.length = primalSolution.postEventIndices_.length
      ∧ ∀ i, i < primalSolution.postEventIndices_.length → ∃ q t x d problemAtEvent,
          primalSolution.postEventIndices_[i]? = some q
          ∧ primalSolution.timeTrajectory_[q - 1]? = some t
          ∧ primalSolution.stateTrajectory_[q - 1]? = some x
          ∧ dualSolution.preJumps[i]? = some d
          ∧ (computeRolloutMetrics problemInterface problem primalSolution dualSolution
              metrics).2.preJumps[i]?
            = some (problemInterface.computePreJumpMetrics
                (problemInterface.requestPreJump rolloutRequest t x problemAtEvent) t x d) := by
  obtain ⟨hle, hnext, hlen, hpre⟩ := computeRolloutMetrics_loop_preJumps problemInterface
    primalSolution dualSolution ⟨problem, clear metrics, 0⟩ rfl rfl hsorted
    (fun q hq => (hrange q hq).1) primalSolution.timeTrajectory_.length
  rw [computeRolloutMetrics_preJumps_eq]
  unfold computeRolloutMetricsLoop
  have hitr : ((List.range primalSolution.timeTrajectory_.length).foldl
      (computeRolloutMetricsStep problemInterface primalSolution dualSolution)
      ⟨problem, clear metrics, 0⟩).nextPostEventIndexItr
      = primalSolution.postEventIndices_.length := by
    by_contra hne
    have hlt := lt_of_le_of_ne hle hne
    have h1 := hnext hlt
    rw [List.getD_eq_getElem _ _ hlt] at h1
    have h2 := (hrange _ (List.getElem_mem hlt)).2
    omega
  rw [hitr] at hlen hpre
  refine ⟨hlen, fun i hi => ?_⟩
  obtain ⟨problemAtEvent, hp⟩ := hpre i hi
  have hq := hrange _ (List.getElem_mem hi)
  have ht : primalSolution.postEventIndices_[i] - 1 < primalSolution.timeTrajectory_.length := by
    omega
  have hxs : primalSolution.postEventIndices_[i] - 1
      < primalSolution.stateTrajectory_.length := hx ▸ ht
  have hd : i < dualSolution.preJumps.length := lt_of_lt_of_le hi hdual
  refine ⟨primalSolution.postEventIndices_[i],
    primalSolution.timeTrajectory_[primalSolution.postEventIndices_[i] - 1],
    primalSolution.stateTrajectory_[primalSolution.postEventIndices_[i] - 1],
    dualSolution.preJumps[i], problemAtEvent, List.getElem?_eq_getElem hi,
    List.getElem?_eq_getElem ht, List.getElem?_eq_getElem hxs, List.getElem?_eq_getElem hd, ?_⟩
  rw [hp, List.getD_eq_getElem _ _ hi, List.getD_eq_getElem _ _ ht,
    List.getD_eq_getElem _ _ hxs, List.getD_eq_getElem _ _ hd]

/-- C17: for a primal solution with `N` time samples, `N` states, `N` inputs and `N`
intermediate duals, `computeRolloutMetrics` produces exactly `N` intermediate metrics, the
`k`-th being `computeIntermediateMetrics` at `(t[k], x[k], u[k])` with
`dualSolution.intermediates[k]`, evaluated on the problem right after `request` at that
sample; the result does not depend on what the metrics collection held before the call. -/
theorem computeRolloutMetrics_intermediates {P D C α K : Type} [LinearOrderedField K]
    [Inhabited D] (problemInterface : ProblemInterface P D α K) (problem : P)
    (primalSolution : PrimalSolution C K) (dualSolution : DualSolution D)
    (metrics : MetricsCollection α K)
    (hx : primalSolution.stateTrajectory_.length = primalSolution.timeTrajectory_.length)
    (hu : primalSolution.inputTrajectory_.length = primalSolution.timeTrajectory_.length)
    (hdual : dualSolution.intermediates.length = primalSolution.timeTrajectory_.length) :
    (computeRolloutMetrics problemInterface problem primalSolution dualSolution
          metrics).2.intermediates.length = primalSolution.timeTrajectory_.length
      ∧ (∀ k, k < primalSolution.timeTrajectory_.length → ∃ t x u d problemAtSample,
          primalSolution.timeTrajectory_[k]? = some t
          ∧ primalSolution.stateTrajectory_[k]? = some x
          ∧ primalSolution.inputTrajectory_[k]? = some u
          ∧ dualSolution.intermediates[k]? = some d
          ∧ (computeRolloutMetrics problemInterface problem primalSolution dualSolution
              metrics).2.intermediates[k]?
            = some (problemInterface.computeIntermediateMetrics
                (problemInterface.request rolloutRequest t x u problemAtSample) t x u d))
      ∧ ∀ previous : MetricsCollection α K,
          computeRolloutMetrics problemInterface problem primalSolution dualSolution previous
            = computeRolloutMetrics problemInterface problem primalSolution dualSolution
                metrics := by
  obtain ⟨_, hlen, hint⟩ := computeRolloutMetrics_loop_intermediates problemInterface
    primalSolution dualSolution ⟨problem, clear metrics, 0⟩ rfl
    primalSolution.timeTrajectory_.length
  rw [computeRolloutMetrics_intermediates_eq]
  unfold computeRolloutMetricsLoop
  refine ⟨hlen, fun k hk => ?_, fun previous => rfl⟩
  obtain ⟨problemAtSample, hp⟩ := hint k hk
  have hxs : k < primalSolution.stateTrajectory_.length := hx ▸ hk
  have hus : k < primalSolution.inputTrajectory_.length := hu ▸ hk
  have hd : k < dualSolution.intermediates.length := hdual ▸ hk
  refine ⟨primalSolution.timeTrajectory_[k], primalSolution.stateTrajectory_[k],
    primalSolution.inputTrajectory_[k], dualSolution.intermediates[k], problemAtSample,
    List.getElem?_eq_getElem hk, List.getElem?_eq_getElem hxs, List.getElem?_eq_getElem hus,
    List.getElem?_eq_getElem hd, ?_⟩
  rw [hp, List.getD_eq_getElem _ _ hk, List.getD_eq_getElem _ _ hxs,
    List.getD_eq_getElem _ _ hus, List.getD_eq_getElem _ _ hd]

theorem computeRolloutMetrics_preJumps_witness :
    (computeRolloutMetrics exampleProblem 0 examplePrimalSolution exampleDualSolution
        ⟨Metrics.ofCost 7 [], [Metrics.ofCost 8 []], []⟩).2.preJumps.length = 1 :=
  (computeRolloutMetrics_preJumps exampleProblem 0 examplePrimalSolution exampleDualSolution
    ⟨Metrics.ofCost 7 [], [Metrics.ofCost 8 []], []⟩ rfl
    (by simp [examplePrimalSolution]) (by simp [examplePrimalSolution])
    (by simp [examplePrimalSolution, exampleDualSolution])).1

theorem computeRolloutMetrics_intermediates_witness :
    (computeRolloutMetrics exampleProblem 0 examplePrimalSolution exampleDualSolution
        ⟨Metrics.ofCost 7 [], [Metrics.ofCost 8 []], []⟩).2.intermediates.length = 3 :=
  (computeRolloutMetrics_intermediates exampleProblem 0 examplePrimalSolution
    exampleDualSolution ⟨Metrics.ofCost 7 [], [Metrics.ofCost 8 []], []⟩ rfl rfl rfl).1

/-- C18: `computeRolloutMetrics` evaluates the final metrics exactly when the time trajectory
is non-empty. If its last sample is `t`, then `metrics.final` is `computeFinalMetrics` at
`(t, x.back())` with `dualSolution.final`, evaluated on the problem right after
`requestFinal` at that sample; if it is empty, the problem is left as it was and the result
is the cleared collection. -/
theorem computeRolloutMetrics_final {P D C α K : Type} [LinearOrderedField K] [Inhabited D]
    (problemInterface : ProblemInterface P D α K) (problem : P)
    (primalSolution : PrimalSolution C K) (dualSolution : DualSolution D)
    (metrics : MetricsCollection α K) :
    (∀ t, primalSolution.timeTrajectory_.getLast? = some t → ∃ problemAtEnd,
        (computeRolloutMetrics problemInterface problem primalSolution dualSolution
            metrics).2.final
          = problemInterface.computeFinalMetrics
              (problemInterface.requestFinal rolloutRequest t
                (primalSolution.stateTrajectory_.getLastD []) problemAtEnd)
              t (primalSolution.stateTrajectory_.getLastD []) dualSolution.final)
      ∧ (primalSolution.timeTrajectory_ = [] →
        computeRolloutMetrics problemInterface problem primalSolution dualSolution metrics
          = (problem, ⟨⟨0, [], [], [], [], [], []⟩, [], []⟩)) := by
  constructor
  · intro t ht
    have hne : primalSolution.timeTrajectory_ ≠ [] := by
      intro hnil
      rw [hnil] at ht
      cases ht
    refine ⟨(computeRolloutMetricsLoop problemInterface problem primalSolution dualSolution
      metrics).problem, ?_⟩
    unfold computeRolloutMetrics
    simp only [hne, ne_eq, not_false_eq_true, if_true, List.getLastD_eq_getLast?, ht,
      Option.getD_some]
  · intro hnil
    unfold computeRolloutMetrics computeRolloutMetricsLoop
    simp only [hnil, ne_eq, not_true_eq_false, if_false, List.length_nil, List.range_zero,
      List.foldl_nil, clear]

/-- C19, a precondition it needs: on the empty time trajectory with one intermediate metric
(zero cost, no residuals, no penalty terms) and no pre-jump metrics, the `assert` of
`computeRolloutPerformanceIndex` fails and no performance index is returned. -/
theorem computeRolloutPerformanceIndex_length_mismatch :
    (⟨Metrics.ofCost 1 [], [], [Metrics.ofCost 0 []]⟩ : MetricsCollection Unit ℚ).preJumps = []
      ∧ (∀ m ∈ (⟨Metrics.ofCost 1 [], [], [Metrics.ofCost 0 []]⟩ :
            MetricsCollection Unit ℚ).intermediates,
          m.cost = 0 ∧ m.stateEqConstraint = [] ∧ m.stateInputEqConstraint = []
            ∧ m.stateEqLagrangian = [] ∧ m.stateInputEqLagrangian = []
            ∧ m.stateIneqLagrangian = [] ∧ m.stateInputIneqLagrangian = [])
      ∧ computeRolloutPerformanceIndex (K := ℚ) (α := Unit) []
          ⟨Metrics.ofCost 1 [], [], [Metrics.ofCost 0 []]⟩ = none := by
  refine ⟨rfl, ?_, ?_⟩
  · intro m hm
    simp only [List.mem_singleton] at hm
    subst hm
    simp [Metrics.ofCost]
  · simp [computeRolloutPerformanceIndex]

section ZeroIntegrand

variable {α K : Type} [LinearOrderedField K]

theorem trapezoidalIntegration_of_forall_zero (timeTrajectory valueTrajectory : List K)
    (h : ∀ x ∈ valueTrajectory, x = 0) :
    trapezoidalIntegration timeTrajectory valueTrajectory = 0 := by
  have hget : ∀ k, valueTrajectory.getD k 0 = 0 := by
    intro k
    by_cases hk : k < valueTrajectory.length
    · rw [List.getD_eq_getElem _ _ hk]
      exact h _ (List.getElem_mem hk)
    · simp [List.getD_eq_getElem?_getD, List.getElem?_eq_none (not_lt.mp hk)]
  unfold trapezoidalIntegration
  apply List.sum_eq_zero
  intro x hx
  obtain ⟨k, _, rfl⟩ := List.mem_map.mp hx
  rw [hget, hget]
  ring

theorem squaredNorm_of_forall_zero (v : List K) (h : ∀ x ∈ v, x = 0) : squaredNorm v = 0 := by
  unfold squaredNorm
  apply List.sum_eq_zero
  intro y hy
  obtain ⟨x, hx, rfl⟩ := List.mem_map.mp hy
  rw [h x hx, mul_zero]

theorem sum_of_forall_zero (termsValue : List (α × K)) (h : ∀ v ∈ termsValue, v.2 = 0) :
    sum termsValue = 0 := by
  rw [sum_eq_sum_snd]
  apply List.sum_eq_zero
  intro y hy
  obtain ⟨v, hv, rfl⟩ := List.mem_map.mp hy
  exact h v hv

end ZeroIntegrand

/-- C19, amended: for a time trajectory and a metrics collection whose intermediates have the
length of the time trajectory, with no pre-jump metrics and with every intermediate metric
having zero cost, zero equality residuals and zero penalty values,
`computeRolloutPerformanceIndex` returns `totalCost = final.cost`,
`equalityConstraintsSSE = ‖final.stateEqConstraint‖²`, and the two Lagrangian penalties equal
to the sums of the second elements of `final.stateEqLagrangian` and of
`final.stateIneqLagrangian`. -/
theorem computeRolloutPerformanceIndex_of_zero_intermediates {α K : Type}
    [LinearOrderedField K] (timeTrajectory : List K) (metrics : MetricsCollection α K)
    (hlen : timeTrajectory.length = metrics.intermediates.length)
    (_hpre : metrics.preJumps = [])
    (hzero : ∀ m ∈ metrics.intermediates,
      m.cost = 0 ∧ (∀ x ∈ m.stateEqConstraint, x = 0)
        ∧ (∀ x ∈ m.stateInputEqConstraint, x = 0)
        ∧ (∀ v ∈ m.stateEqLagrangian, v.2 = 0) ∧ (∀ v ∈ m.stateInputEqLagrangian, v.2 = 0)
        ∧ (∀ v ∈ m.stateIneqLagrangian, v.2 = 0)
        ∧ (∀ v ∈ m.stateInputIneqLagrangian, v.2 = 0)) :
    ∃ performanceIndex,
      computeRolloutPerformanceIndex timeTrajectory metrics = some performanceIndex
        ∧ performanceIndex.totalCost = metrics.final.cost
        ∧ performanceIndex.equalityConstraintsSSE
            = squaredNorm metrics.final.stateEqConstraint
        ∧ performanceIndex.equalityLagrangiansPenalty
            = (metrics.final.stateEqLagrangian.map Prod.snd).sum
        ∧ performanceIndex.inequalityLagrangiansPenalty
            = (metrics.final.stateIneqLagrangian.map Prod.snd).sum := by
  refine ⟨_, computeRolloutPerformanceIndex_of_length_eq timeTrajectory metrics hlen,
    ?_, ?_, ?_, ?_⟩
  · show metrics.final.cost + trapezoidalIntegration timeTrajectory _ = metrics.final.cost
    rw [trapezoidalIntegration_of_forall_zero, add_zero]
    intro x hx
    obtain ⟨m, hm, rfl⟩ := List.mem_map.mp hx
    exact (hzero m hm).1
  · show squaredNorm metrics.final.stateEqConstraint
        + trapezoidalIntegration timeTrajectory _ = squaredNorm metrics.final.stateEqConstraint
    rw [trapezoidalIntegration_of_forall_zero, add_zero]
    intro x hx
    obtain ⟨m, hm, rfl⟩ := List.mem_map.mp hx
    obtain ⟨_, h1, h2, _⟩ := hzero m hm
    rw [squaredNorm_of_forall_zero _ h1, squaredNorm_of_forall_zero _ h2, add_zero]
  · show sum metrics.final.stateEqLagrangian + trapezoidalIntegration timeTrajectory _
        = (metrics.final.stateEqLagrangian.map Prod.snd).sum
    rw [trapezoidalIntegration_of_forall_zero, add_zero, sum_eq_sum_snd]
    intro x hx
    obtain ⟨m, hm, rfl⟩ := List.mem_map.mp hx
    obtain ⟨_, _, _, h1, h2, _⟩ := hzero m hm
    rw [sum_of_forall_zero _ h1, sum_of_forall_zero _ h2, add_zero]
  · show sum metrics.final.stateIneqLagrangian + trapezoidalIntegration timeTrajectory _
        = (metrics.final.stateIneqLagrangian.map Prod.snd).sum
    rw [trapezoidalIntegration_of_forall_zero, add_zero, sum_eq_sum_snd]
    intro x hx
    obtain ⟨m, hm, rfl⟩ := List.mem_map.mp hx
    obtain ⟨_, _, _, _, _, h1, h2⟩ := hzero m hm
    rw [sum_of_forall_zero _ h1, sum_of_forall_zero _ h2, add_zero]

theorem computeRolloutPerformanceIndex_of_zero_intermediates_witness :
    ∃ performanceIndex,
      computeRolloutPerformanceIndex (K := ℚ) (α := Unit) [0, 1]
          ⟨⟨3, [2], [], [((), 5)], [((), 7)], [], []⟩, [],
            [⟨0, [0], [0, 0], [((), 0)], [], [], [((), 0)]⟩, Metrics.ofCost 0 []]⟩
        = some performanceIndex
        ∧ performanceIndex.totalCost = 3
        ∧ performanceIndex.equalityConstraintsSSE = squaredNorm [2]
        ∧ performanceIndex.equalityLagrangiansPenalty = ([((), (5 : ℚ))].map Prod.snd).sum
        ∧ performanceIndex.inequalityLagrangiansPenalty
            = ([((), (7 : ℚ))].map Prod.snd).sum :=
  computeRolloutPerformanceIndex_of_zero_intermediates (K := ℚ) (α := Unit) [0, 1]
    ⟨⟨3, [2], [], [((), 5)], [((), 7)], [], []⟩, [],
      [⟨0, [0], [0, 0], [((), 0)], [], [], [((), 0)]⟩, Metrics.ofCost 0 []]⟩
    rfl rfl (by simp [Metrics.ofCost])

end ocs2

namespace switched_model

/-- C20: for every time, next time and state, `ComKinoInitializer::compute` returns a next
state of `STATE_DIM` coefficients whose pose block is the pose block of the state, whose
base-velocity block is zero and whose joint-position block is the joint-position block of the
state. -/
theorem compute_nextState {K M F : Type} [LinearOrderedField K] {b j : Nat}
    (self : ComKinoInitializer K M F) (time : K) (state : comkino_state_t K b j)
    (nextTime : K) :
    ∃ h : (self.compute time state nextTime).2.length = STATE_DIM b j,
      getComPose (⟨(self.compute time state nextTime).2, h⟩ : comkino_state_t K b j)
          = getComPose state
        ∧ getComLocalVelocities
            (⟨(self.compute time state nextTime).2, h⟩ : comkino_state_t K b j)
          = List.replicate b 0
        ∧ getJointPositions (⟨(self.compute time state nextTime).2, h⟩ : comkino_state_t K b j)
          = getJointPositions state := by
  have hlen : state.val.length = b + b + j := state.property
  have htake : (state.val.take b).length = b := by
    rw [List.length_take, hlen]
    omega
  have hdrop : (state.val.drop (b + b)).length = j := by
    rw [List.length_drop, hlen]
    omega
  have hnext : (self.compute time state nextTime).2
      = state.val.take b ++ (List.replicate b (0 : K) ++ state.val.drop (b + b)) := by
    simp only [ComKinoInitializer.compute, getComPose, getJointPositions, List.append_assoc]
  refine ⟨?_, ?_, ?_, ?_⟩
  · rw [hnext]
    simp only [List.length_append, List.length_replicate, htake, hdrop, STATE_DIM]
    omega
  · simp only [getComPose]
    rw [hnext, List.take_left' htake]
  · simp only [getComLocalVelocities]
    rw [hnext, List.drop_left' htake, List.take_left' (List.length_replicate _ _)]
  · simp only [getJointPositions]
    rw [hnext, ← List.append_assoc, List.drop_left']
    rw [List.length_append, htake, List.length_replicate]

end switched_model

namespace ocs2.augmented

/-- C25: for `scale > 0`, `δ > -1`, `λ > 0` and `v = h/(scale·λ) ≤ δ` (the quadratic branch),
`updateMultiplier(t, λ, h) = max(stepSize·λ·(1 + 2δ - v)/(1+δ)², 1e-4)`, which depends on
`scale` only through `v`. -/
theorem updateMultiplier_quadratic_branch {K : Type} [LinearOrderedField K] (config : Config K)
    (t l h : K) (hs : 0 < config.scale) (hd : -1 < config.relaxation) (hl : 0 < l)
    (hv : vFunc config l h ≤ config.relaxation) :
    updateMultiplier config t l h
      = max (config.stepSize * l * (1 + 2 * config.relaxation - vFunc config l h)
          / (1 + config.relaxation) ^ 2) (1 / 10000) := by
  have h1 : (1 + config.relaxation) ≠ 0 := by
    have : 0 < 1 + config.relaxation := by linarith
    exact this.ne.symm
  have hsne : config.scale ≠ 0 := hs.ne.symm
  have hlne : l ≠ 0 := hl.ne.symm
  unfold updateMultiplier lambdaMin
  simp only [gt_iff_lt, not_lt.mpr hv, if_false]
  congr 1
  generalize vFunc config l h = v
  unfold wFunc a_ b_ dldhFunc
  field_simp
  ring

theorem updateMultiplier_quadratic_branch_witness :
    updateMultiplier (K := ℚ) ⟨100, 1 / 100, 1 / 2⟩ 0 2 (-200)
      = max ((1 / 2 : ℚ) * 2 * (1 + 2 * (1 / 100) - vFunc (⟨100, 1 / 100, 1 / 2⟩ : Config ℚ) 2 (-200))
          / (1 + 1 / 100) ^ 2) (1 / 10000) :=
  updateMultiplier_quadratic_branch (⟨100, 1 / 100, 1 / 2⟩ : Config ℚ) 0 2 (-200)
    (by norm_num) (by norm_num) (by norm_num) (by norm_num [vFunc])

/-- C30: for `scale > 0`, `δ ≥ 0` and `λ > 0`, `getDerivative(t, λ, h) < 0` for every `h`; on
the branch `v > δ` it equals `-λ/(1+v)`, and there
`updateMultiplier(t, λ, h) = max(-getDerivative(t, λ, h), 1e-4)`. -/
theorem getDerivative_neg {K : Type} [LinearOrderedField K] (config : Config K)
    (t l h : K) (hs : 0 < config.scale) (hd : 0 ≤ config.relaxation) (hl : 0 < l) :
    getDerivative config t l h < 0
      ∧ (config.relaxation < vFunc config l h →
          getDerivative config t l h = -l / (1 + vFunc config l h)
            ∧ updateMultiplier config t l h
              = max (-getDerivative config t l h) (1 / 10000)) := by
  have hw : 0 < wFunc config l := wFunc_pos config l hs hl
  have hdl : 0 < dldhFunc config l := by
    unfold dldhFunc
    positivity
  have h1 : 0 < 1 + config.relaxation := by linarith
  have hsne : config.scale ≠ 0 := hs.ne.symm
  have hlne : l ≠ 0 := hl.ne.symm
  have hlog : config.relaxation < vFunc config l h →
      getDerivative config t l h = -l / (1 + vFunc config l h) := by
    intro hv
    have hv1 : (1 + vFunc config l h) ≠ 0 := by
      have : 0 < 1 + vFunc config l h := by linarith
      exact this.ne.symm
    rw [getDerivative_of_gt config t l h hv]
    generalize vFunc config l h = v at hv1
    unfold wFunc dldhFunc
    field_simp
    ring
  constructor
  · by_cases hv : config.relaxation < vFunc config l h
    · rw [hlog hv]
      have : 0 < 1 + vFunc config l h := by linarith
      exact div_neg_of_neg_of_pos (by linarith) this
    · rw [getDerivative_of_le config t l h (not_lt.mp hv)]
      have ha : 0 < a_ config := by
        unfold a_
        positivity
      have hb : b_ config < 0 := by
        unfold b_
        exact div_neg_of_neg_of_pos (by norm_num) h1
      have hneg : a_ config * (vFunc config l h - config.relaxation) + b_ config < 0 := by
        have : a_ config * (vFunc config l h - config.relaxation) ≤ 0 :=
          mul_nonpos_of_nonneg_of_nonpos ha.le (by linarith [not_lt.mp hv])
        linarith
      exact mul_neg_of_neg_of_pos (mul_neg_of_pos_of_neg hw hneg) hdl
  · intro hv
    refine ⟨hlog hv, ?_⟩
    have hv1 : (1 + vFunc config l h) ≠ 0 := by
      have : 0 < 1 + vFunc config l h := by linarith
      exact this.ne.symm
    rw [hlog hv]
    unfold updateMultiplier lambdaMin
    simp only [gt_iff_lt, hv, if_true]
    congr 1
    generalize vFunc config l h = v at hv1
    unfold wFunc dldhFunc
    field_simp
    ring

theorem getDerivative_neg_witness :
    getDerivative (K := ℚ) Config.default 0 1 100 < 0
      ∧ (Config.default.relaxation < vFunc (K := ℚ) Config.default 1 100 →
          getDerivative (K := ℚ) Config.default 0 1 100
              = -1 / (1 + vFunc (K := ℚ) Config.default 1 100)
            ∧ updateMultiplier (K := ℚ) Config.default 0 1 100
              = max (-getDerivative (K := ℚ) Config.default 0 1 100) (1 / 10000)) :=
  getDerivative_neg (K := ℚ) Config.default 0 1 100 (by norm_num [Config.default])
    (by norm_num [Config.default]) (by norm_num)

end ocs2.augmented

namespace ocs2.augmented

/-- C29: with `stepSize = 0`, `scale = 1 > 0` and the relaxation `-1/2`, the violated
constraint `h = -1/10` at `λ = 1` has `v = -1/10 > δ`, so `updateMultiplier` takes the
log-barrier branch, which is not scaled by the step size, and returns `λ/(1+v) = 10/9`,
whereas the claim gives the floor `1e-4` for every violated constraint. No denominator is
zero at this input. -/
theorem updateMultiplier_stepSize_zero_negative_relaxation :
    (⟨1, -(1 / 2), 0⟩ : Config ℚ).stepSize = 0
      ∧ (0 : ℚ) < (⟨1, -(1 / 2), 0⟩ : Config ℚ).scale
      ∧ (-(1 / 10) : ℚ) < 0
      ∧ updateMultiplier (⟨1, -(1 / 2), 0⟩ : Config ℚ) 0 1 (-(1 / 10)) = 10 / 9
      ∧ updateMultiplier (⟨1, -(1 / 2), 0⟩ : Config ℚ) 0 1 (-(1 / 10)) ≠ 1 / 10000 := by
  have hval : updateMultiplier (⟨1, -(1 / 2), 0⟩ : Config ℚ) 0 1 (-(1 / 10)) = 10 / 9 := by
    simp only [updateMultiplier, vFunc, wFunc, dldhFunc, lambdaMin]
    norm_num
  refine ⟨rfl, by norm_num, by norm_num, hval, ?_⟩
  rw [hval]
  norm_num

/-- C28: for `scale > 0`, `δ ≥ 0`, `λ > 0` and every `h` with `h/(scale·λ) ≠ δ`,
`getSecondDerivative(t, λ, h)` is the derivative with respect to `h` of
`h ↦ getDerivative(t, λ, h)`; and at `v = δ` the two branch expressions of
`getSecondDerivative` both equal `1/(scale·(1+δ)²)`. -/
theorem getDerivative_hasDerivAt_getSecondDerivative (config : Config ℝ) (t l h : ℝ)
    (hs : 0 < config.scale) (hd : 0 ≤ config.relaxation) (hl : 0 < l)
    (hv : vFunc config l h ≠ config.relaxation) :
    HasDerivAt (fun y => getDerivative config t l y) (getSecondDerivative config t l h) h
      ∧ wFunc config l / ((1 + config.relaxation) * (1 + config.relaxation))
            * dldhFunc config l * dldhFunc config l
          = 1 / (config.scale * (1 + config.relaxation) ^ 2)
      ∧ wFunc config l * a_ config * dldhFunc config l * dldhFunc config l
          = 1 / (config.scale * (1 + config.relaxation) ^ 2) := by
  have hc : 0 < config.scale * l := mul_pos hs hl
  have hcne : config.scale * l ≠ 0 := hc.ne.symm
  have hsne : config.scale ≠ 0 := hs.ne.symm
  have hlne : l ≠ 0 := hl.ne.symm
  have h1 : (1 + config.relaxation) ≠ 0 := by
    have : 0 < 1 + config.relaxation := by linarith
    exact this.ne.symm
  have hvder : HasDerivAt (fun y => vFunc config l y) (1 / (config.scale * l)) h := by
    unfold vFunc
    simpa using (hasDerivAt_id h).div_const (config.scale * l)
  refine ⟨?_, ?_, ?_⟩
  · rcases lt_or_gt_of_ne hv with hlt | hgt
    · -- quadratic branch
      have hev : (fun y => getDerivative config t l y) =ᶠ[nhds h] fun y =>
          wFunc config l * (a_ config * (vFunc config l y - config.relaxation) + b_ config)
            * dldhFunc config l := by
        have hlt2 : h < config.relaxation * (config.scale * l) := by
          unfold vFunc at hlt
          exact (div_lt_iff₀ hc).mp hlt
        filter_upwards [gt_mem_nhds hlt2] with y hy
        apply getDerivative_of_le
        unfold vFunc
        exact ((div_lt_iff₀ hc).mpr hy).le
      have hder := ((((hvder.sub_const config.relaxation).const_mul (a_ config)).add_const
        (b_ config)).const_mul (wFunc config l)).mul_const (dldhFunc config l)
      have hval : getSecondDerivative config t l h
          = wFunc config l * (a_ config * (1 / (config.scale * l))) * dldhFunc config l := by
        unfold getSecondDerivative
        simp only [gt_iff_lt, not_lt.mpr hlt.le, if_false]
        unfold dldhFunc
        ring
      rw [hval]
      exact hder.congr_of_eventuallyEq hev
    · -- log-barrier branch
      have hev : (fun y => getDerivative config t l y) =ᶠ[nhds h] fun y =>
          -wFunc config l / (1 + vFunc config l y) * dldhFunc config l := by
        have hgt2 : config.relaxation * (config.scale * l) < h := by
          unfold vFunc at hgt
          exact (lt_div_iff₀ hc).mp hgt
        filter_upwards [lt_mem_nhds hgt2] with y hy
        apply getDerivative_of_gt
        unfold vFunc
        exact (lt_div_iff₀ hc).mpr hy
      have hv1 : (1 + vFunc config l h) ≠ 0 := by
        have : 0 < 1 + vFunc config l h := by linarith
        exact this.ne.symm
      have hder := (((hasDerivAt_const h (-wFunc config l)).div (hvder.const_add 1)
        hv1).mul_const (dldhFunc config l))
      have hval : getSecondDerivative config t l h
          = (0 * (1 + vFunc config l h) - -wFunc config l * (1 / (config.scale * l)))
              / (1 + vFunc config l h) ^ 2 * dldhFunc config l := by
        unfold getSecondDerivative
        simp only [gt_iff_lt, hgt, if_true]
        generalize vFunc config l h = v at hv1
        unfold dldhFunc
        field_simp
        left
        ring
      rw [hval]
      exact hder.congr_of_eventuallyEq hev
  · unfold wFunc dldhFunc
    field_simp
    ring
  · unfold wFunc a_ dldhFunc
    field_simp
    ring

theorem getDerivative_hasDerivAt_getSecondDerivative_witness :
    HasDerivAt (fun y => getDerivative (⟨1, 0, 0⟩ : Config ℝ) 0 1 y)
      (getSecondDerivative (⟨1, 0, 0⟩ : Config ℝ) 0 1 1) 1 :=
  (getDerivative_hasDerivAt_getSecondDerivative (⟨1, 0, 0⟩ : Config ℝ) 0 1 1 (by norm_num)
    (by norm_num) (by norm_num) (by norm_num [vFunc])).1

end ocs2.augmented

namespace ocs2

section PreJumpCount

variable {P D C α K : Type} [LinearOrderedField K] [Inhabited D]
  (problemInterface : ProblemInterface P D α K) (primalSolution : PrimalSolution C K)
  (dualSolution : DualSolution D)

theorem take_succ_eq_append_getD (l : List Nat) (c : Nat) (h : c < l.length) :
    l.take (c + 1) = l.take c ++ [l.getD c 0] := by
  rw [List.take_succ, List.getElem?_eq_getElem h, List.getD_eq_getElem _ _ h]
  rfl

/-- The loop invariant of the walk through `postEventIndices`, for an arbitrary list: after
`k` passes the indices that the iterator has passed are strictly increasing and lie in
`[1, k]`, one pre-jump metric was pushed for each, and the index under the iterator, if it
exceeds all of them, is `0` or greater than `k`. -/
theorem computeRolloutMetrics_loop_count (s0 : MetricsLoopState P α K)
    (h0 : s0.metrics.preJumps = []) (hitr : s0.nextPostEventIndexItr = 0) (k : Nat) :
    ((List.range k).foldl
          (computeRolloutMetricsStep problemInterface primalSolution dualSolution)
          s0).nextPostEventIndexItr ≤ primalSolution.postEventIndices_.length
      ∧ (primalSolution.postEventIndices_.take ((List.range k).foldl
          (computeRolloutMetricsStep problemInterface primalSolution dualSolution)
          s0).nextPostEventIndexItr).Pairwise (fun a b => a < b)
      ∧ (∀ q ∈ primalSolution.postEventIndices_.take ((List.range k).foldl
          (computeRolloutMetricsStep problemInterface primalSolution dualSolution)
          s0).nextPostEventIndexItr, 1 ≤ q ∧ q ≤ k)
      ∧ ((List.range k).foldl
          (computeRolloutMetricsStep problemInterface primalSolution dualSolution)
          s0).metrics.preJumps.length
        = ((List.range k).foldl
          (computeRolloutMetricsStep problemInterface primalSolution dualSolution)
          s0).nextPostEventIndexItr
      ∧ (((List.range k).foldl
          (computeRolloutMetricsStep problemInterface primalSolution dualSolution)
          s0).nextPostEventIndexItr < primalSolution.postEventIndices_.length
        → (∀ q ∈ primalSolution.postEventIndices_.take ((List.range k).foldl
            (computeRolloutMetricsStep problemInterface primalSolution dualSolution)
            s0).nextPostEventIndexItr,
          q < primalSolution.postEventIndices_.getD ((List.range k).foldl
            (computeRolloutMetricsStep problemInterface primalSolution dualSolution)
            s0).nextPostEventIndexItr 0)
        → primalSolution.postEventIndices_.getD ((List.range k).foldl
            (computeRolloutMetricsStep problemInterface primalSolution dualSolution)
            s0).nextPostEventIndexItr 0 = 0
          ∨ k < primalSolution.postEventIndices_.getD ((List.range k).foldl
            (computeRolloutMetricsStep problemInterface primalSolution dualSolution)
            s0).nextPostEventIndexItr 0) := by
  induction k with
  | zero =>
    simp only [List.range_zero, List.foldl_nil, hitr, h0, List.take_zero, List.length_nil]
    refine ⟨Nat.zero_le _, List.Pairwise.nil, fun q hq => absurd hq (List.not_mem_nil q),
      trivial, fun _ _ => ?_⟩
    exact Nat.eq_zero_or_pos _
  | succ k ih =>
    obtain ⟨ihle, ihpair, ihmem, ihlen, ihnext⟩ := ih
    rw [List.range_succ, List.foldl_append, List.foldl_cons, List.foldl_nil]
    generalize (List.range k).foldl
      (computeRolloutMetricsStep problemInterface primalSolution dualSolution) s0 = s
      at ihle ihpair ihmem ihlen ihnext
    by_cases hev : s.nextPostEventIndexItr ≠ primalSolution.postEventIndices_.length
        ∧ k + 1 = primalSolution.postEventIndices_.getD s.nextPostEventIndexItr 0
    · obtain ⟨hi1, hp1⟩ := computeRolloutMetricsStep_of_event problemInterface primalSolution
        dualSolution s k hev
      have hlt : s.nextPostEventIndexItr < primalSolution.postEventIndices_.length :=
        lt_of_le_of_ne ihle hev.1
      rw [hi1, hp1, take_succ_eq_append_getD _ _ hlt, ← hev.2]
      refine ⟨hlt, ?_, ?_, by rw [List.length_append, ihlen]; rfl, ?_⟩
      · rw [List.pairwise_append]
        refine ⟨ihpair, List.pairwise_singleton _ _, fun a ha b hb => ?_⟩
        rw [List.mem_singleton] at hb
        have := (ihmem a ha).2
        omega
      · intro q hq
        rcases List.mem_append.mp hq with hq1 | hq2
        · have := ihmem q hq1
          omega
        · rw [List.mem_singleton] at hq2
          omega
      · intro _ hall
        right
        exact hall (k + 1) (List.mem_append.mpr (Or.inr (List.mem_singleton.mpr rfl)))
    · obtain ⟨hi1, hp1⟩ := computeRolloutMetricsStep_of_no_event problemInterface
        primalSolution dualSolution s k hev
      rw [hi1, hp1]
      refine ⟨ihle, ihpair, ?_, ihlen, ?_⟩
      · intro q hq
        have := ihmem q hq
        omega
      · intro hlt hall
        have hne : k + 1 ≠ primalSolution.postEventIndices_.getD s.nextPostEventIndexItr 0 :=
          fun heq => hev ⟨hlt.ne, heq⟩
        rcases ihnext hlt hall with hz | hgt
        · exact Or.inl hz
        · right
          omega

end PreJumpCount

/-- C27: for every primal solution with `N` time samples and every list of post-event
indices, sorted or not, the number `c` of pre-jump metrics that `computeRolloutMetrics`
produces is the length of the longest prefix of `postEventIndices` that is strictly increasing
with all entries in `[1, N]`: the first `c` indices form such a prefix and, unless `c` is the
length of the list, the first `c + 1` do not. In particular `c` never exceeds
`postEventIndices.size()`, and `c = 0` when the first index is `0`. -/
theorem computeRolloutMetrics_preJumps_count {P D C α K : Type} [LinearOrderedField K]
    [Inhabited D] (problemInterface : ProblemInterface P D α K) (problem : P)
    (primalSolution : PrimalSolution C K) (dualSolution : DualSolution D)
    (metrics : MetricsCollection α K) :
    (computeRolloutMetrics problemInterface problem primalSolution dualSolution
          metrics).2.preJumps.length ≤ primalSolution.postEventIndices_.length
      ∧ (primalSolution.postEventIndices_.take
          (computeRolloutMetrics problemInterface problem primalSolution dualSolution
            metrics).2.preJumps.length).Pairwise (fun a b => a < b)
      ∧ (∀ q ∈ primalSolution.postEventIndices_.take
          (computeRolloutMetrics problemInterface problem primalSolution dualSolution
            metrics).2.preJumps.length,
          1 ≤ q ∧ q ≤ primalSolution.timeTrajectory_.length)
      ∧ ((computeRolloutMetrics problemInterface problem primalSolution dualSolution
            metrics).2.preJumps.length < primalSolution.postEventIndices_.length
        → ¬ ((primalSolution.postEventIndices_.take
              ((computeRolloutMetrics problemInterface problem primalSolution dualSolution
                metrics).2.preJumps.length + 1)).Pairwise (fun a b => a < b)
            ∧ ∀ q ∈ primalSolution.postEventIndices_.take
              ((computeRolloutMetrics problemInterface problem primalSolution dualSolution
                metrics).2.preJumps.length + 1),
              1 ≤ q ∧ q ≤ primalSolution.timeTrajectory_.length))
      ∧ (primalSolution.postEventIndices_.head? = some 0
        → (computeRolloutMetrics problemInterface problem primalSolution dualSolution
            metrics).2.preJumps.length = 0) := by
  obtain ⟨hle, hpair, hmem, hlen, hnext⟩ := computeRolloutMetrics_loop_count problemInterface
    primalSolution dualSolution ⟨problem, clear metrics, 0⟩ rfl rfl
    primalSolution.timeTrajectory_.length
  rw [computeRolloutMetrics_preJumps_eq]
  unfold computeRolloutMetricsLoop
  rw [hlen]
  generalize ((List.range primalSolution.timeTrajectory_.length).foldl
    (computeRolloutMetricsStep problemInterface primalSolution dualSolution)
    ⟨problem, clear metrics, 0⟩).nextPostEventIndexItr = c at hle hpair hmem hnext
  refine ⟨hle, hpair, hmem, ?_, ?_⟩
  · rintro hlt ⟨hp, hm⟩
    rw [take_succ_eq_append_getD _ _ hlt] at hp hm
    have hall := (List.pairwise_append.mp hp).2.2
    have hx := hm (primalSolution.postEventIndices_.getD c 0)
      (List.mem_append.mpr (Or.inr (List.mem_singleton.mpr rfl)))
    rcases hnext hlt (fun q hq => hall q hq _ (List.mem_singleton.mpr rfl)) with hz | hgt
    · omega
    · omega
  · intro hhead
    by_contra hc
    obtain ⟨c', rfl⟩ := Nat.exists_eq_succ_of_ne_zero hc
    cases hp : primalSolution.postEventIndices_ with
    | nil => rw [hp] at hhead; cases hhead
    | cons q qs =>
      rw [hp] at hhead hmem
      simp only [List.head?_cons, Option.some.injEq] at hhead
      have := (hmem q (by simp)).1
      omega

end ocs2

namespace ocs2

/-- C22: if the time stamps and the gains of the baseline controller have length `n`, then
after `incrementController` the arrays `timeStamp_`, `gainArray_` and `biasArray_` of the
output all have length `n`, for every step length; and these three arrays are the same
whatever the output controller held before the call. -/
theorem incrementController_lengths {G K : Type} [LinearOrderedField K]
    (clear : LinearController G K → LinearController G K) (stepLength : K)
    (unoptimizedController controller : LinearController G K) (n : Nat)
    (ht : unoptimizedController.timeStamp_.length = n)
    (hg : unoptimizedController.gainArray_.length = n)
    (hb : unoptimizedController.biasArray_.length = n)
    (hd : unoptimizedController.deltaBiasArray_.length = n) :
    (incrementController clear stepLength unoptimizedController controller).timeStamp_.length = n
      ∧ (incrementController clear stepLength unoptimizedController
          controller).gainArray_.length = n
      ∧ (incrementController clear stepLength unoptimizedController
          controller).biasArray_.length = n
      ∧ ∀ previous : LinearController G K,
          (incrementController clear stepLength unoptimizedController previous).timeStamp_
              = (incrementController clear stepLength unoptimizedController
                  controller).timeStamp_
            ∧ (incrementController clear stepLength unoptimizedController previous).gainArray_
              = (incrementController clear stepLength unoptimizedController
                  controller).gainArray_
            ∧ (incrementController clear stepLength unoptimizedController previous).biasArray_
              = (incrementController clear stepLength unoptimizedController
                  controller).biasArray_ := by
  have hbias : ∀ c : LinearController G K,
      (incrementController clear stepLength unoptimizedController c).biasArray_
        = List.zipWith (fun b d => vecAdd b (scalarMul stepLength d))
            unoptimizedController.biasArray_ unoptimizedController.deltaBiasArray_ :=
    fun c => incrementController_biasArray_eq_zipWith clear stepLength unoptimizedController c
      (ht.trans hb.symm) (ht.trans hd.symm)
  refine ⟨?_, ?_, ?_, fun previous => ⟨?_, ?_, ?_⟩⟩
  · rw [incrementController_timeStamp_, ht]
  · rw [incrementController_gainArray_, hg]
  · rw [hbias, List.length_zipWith, hb, hd, min_self]
  · rw [incrementController_timeStamp_, incrementController_timeStamp_]
  · rw [incrementController_gainArray_, incrementController_gainArray_]
  · rw [hbias, hbias]

theorem incrementController_lengths_witness :
    (incrementController (G := Unit) (K := ℚ) id (1 / 2)
        ⟨[0, 1], [(), ()], [[1], [2]], [[2], [4]]⟩ ⟨[5], [], [[7]], []⟩).biasArray_.length
      = 2 :=
  (incrementController_lengths (G := Unit) (K := ℚ) id (1 / 2)
    ⟨[0, 1], [(), ()], [[1], [2]], [[2], [4]]⟩ ⟨[5], [], [[7]], []⟩ 2 rfl rfl rfl rfl).2.2.1

/-- C23: when every coefficient of the final state that `rollout.run` returns is finite,
`rolloutTrajectory` returns `(timePeriod.second - timePeriod.first) / N`, where `N` is the
number of samples that `rollout.run` wrote into `primalSolution.timeTrajectory_`, and
`primalSolution.modeSchedule_` holds the given mode schedule. -/
theorem rolloutTrajectory_average_step {C K : Type} [LinearOrderedField K]
    (run : K → List K → K → C → List K → List K → List Nat → List (List K) → List (List K)
      → RunResult K)
    (timePeriod : K × K) (initState : List K) (modeSchedule : ModeSchedule K)
    (primalSolution : PrimalSolution C K)
    (hfinite : ∀ c ∈ (run timePeriod.1 initState timePeriod.2 primalSolution.controllerPtr_
        modeSchedule.eventTimes primalSolution.timeTrajectory_
        primalSolution.postEventIndices_ primalSolution.stateTrajectory_
        primalSolution.inputTrajectory_).xCurrent, c ≠ none) :
    (rolloutTrajectory run timePeriod initState modeSchedule primalSolution).1.timeTrajectory_
        = (run timePeriod.1 initState timePeriod.2 primalSolution.controllerPtr_
            modeSchedule.eventTimes primalSolution.timeTrajectory_
            primalSolution.postEventIndices_ primalSolution.stateTrajectory_
            primalSolution.inputTrajectory_).timeTrajectory
      ∧ (rolloutTrajectory run timePeriod initState modeSchedule primalSolution).2
        = Except.ok ((timePeriod.2 - timePeriod.1)
            / ((rolloutTrajectory run timePeriod initState modeSchedule
                primalSolution).1.timeTrajectory_.length : K))
      ∧ (rolloutTrajectory run timePeriod initState modeSchedule primalSolution).1.modeSchedule_
        = modeSchedule := by
  have hfin : allFinite (run timePeriod.1 initState timePeriod.2
      primalSolution.controllerPtr_ modeSchedule.eventTimes primalSolution.timeTrajectory_
      primalSolution.postEventIndices_ primalSolution.stateTrajectory_
      primalSolution.inputTrajectory_).xCurrent = true := by
    simp only [allFinite, List.all_eq_true, Option.isSome_iff_ne_none]
    exact hfinite
  unfold rolloutTrajectory
  simp only [hfin, Bool.not_true, Bool.false_eq_true, if_false, and_self]

theorem rolloutTrajectory_average_step_witness :
    (rolloutTrajectory exampleRun (0, 1) [1] ⟨[], [0]⟩ ⟨[], [], [], [], (), ⟨[5], [0, 1]⟩⟩).2
      = Except.ok (1 / 2) := by
  have h := (rolloutTrajectory_average_step exampleRun (0, 1) [1] ⟨[], [0]⟩
    ⟨[], [], [], [], (), ⟨[5], [0, 1]⟩⟩ (by simp [exampleRun])).2.1
  rw [h]
  simp [rolloutTrajectory, exampleRun, allFinite]

/-- C24: whenever `computeRolloutPerformanceIndex` returns a performance index, its
`dynamicsViolationSSE` is `0`; and it returns one for every time trajectory and every metrics
collection whose intermediates have the length of the time trajectory (the `assert`). -/
theorem computeRolloutPerformanceIndex_dynamicsViolationSSE {α K : Type}
    [LinearOrderedField K] (timeTrajectory : List K) (metrics : MetricsCollection α K) :
    (∀ performanceIndex,
        computeRolloutPerformanceIndex timeTrajectory metrics = some performanceIndex
          → performanceIndex.dynamicsViolationSSE = 0)
      ∧ (timeTrajectory.length = metrics.intermediates.length
          → ∃ performanceIndex,
              computeRolloutPerformanceIndex timeTrajectory metrics = some performanceIndex
                ∧ performanceIndex.dynamicsViolationSSE = 0) := by
  constructor
  · intro performanceIndex hsome
    by_cases hlen : timeTrajectory.length = metrics.intermediates.length
    · rw [computeRolloutPerformanceIndex_of_length_eq timeTrajectory metrics hlen] at hsome
      cases hsome
      rfl
    · simp [computeRolloutPerformanceIndex, hlen] at hsome
  · intro hlen
    exact ⟨_, computeRolloutPerformanceIndex_of_length_eq timeTrajectory metrics hlen, rfl⟩

/-- C26: two metrics collections with the same `final` and the same `intermediates` give the
same result of `computeRolloutPerformanceIndex`, whatever their pre-jump metrics are; when the
intermediates have the length of the time trajectory this result is a performance index, the
same in all five fields. -/
theorem computeRolloutPerformanceIndex_ignores_preJumps {α K : Type} [LinearOrderedField K]
    (timeTrajectory : List K) (final : Metrics α K)
    (preJumps preJumpsOther intermediates : List (Metrics α K)) :
    computeRolloutPerformanceIndex timeTrajectory ⟨final, preJumps, intermediates⟩
        = computeRolloutPerformanceIndex timeTrajectory ⟨final, preJumpsOther, intermediates⟩
      ∧ (timeTrajectory.length = intermediates.length
          → ∃ performanceIndex,
              computeRolloutPerformanceIndex timeTrajectory ⟨final, preJumps, intermediates⟩
                  = some performanceIndex
                ∧ computeRolloutPerformanceIndex timeTrajectory
                    ⟨final, preJumpsOther, intermediates⟩ = some performanceIndex) := by
  have heq : computeRolloutPerformanceIndex timeTrajectory ⟨final, preJumps, intermediates⟩
      = computeRolloutPerformanceIndex timeTrajectory
          ⟨final, preJumpsOther, intermediates⟩ := by
    by_cases hlen : timeTrajectory.length = intermediates.length
    · rw [computeRolloutPerformanceIndex_of_length_eq timeTrajectory _ hlen,
        computeRolloutPerformanceIndex_of_length_eq timeTrajectory _ hlen]
    · simp [computeRolloutPerformanceIndex, hlen]
  refine ⟨heq, fun hlen => ?_⟩
  have hsome := computeRolloutPerformanceIndex_of_length_eq timeTrajectory
    (⟨final, preJumps, intermediates⟩ : MetricsCollection α K) hlen
  exact ⟨_, hsome, heq ▸ hsome⟩

end ocs2

namespace switched_model

/-- C21: the input that `ComKinoInitializer::compute` returns is `weightCompensatingInputs`
applied to the model, to the contact flags that the mode-schedule manager reports at `time`
and to the orientation of the pose of the state. Hence a second call at the same `time` with
a state of the same base orientation returns the same input, whatever the next times and the
rest of the states; and when the flags at `time` are the no-contact flags, the input is
`weightCompensatingInputs` at the no-contact flags. -/
theorem compute_input {K M F : Type} [LinearOrderedField K] {b j : Nat}
    (self : ComKinoInitializer K M F) (time : K) (state : comkino_state_t K b j)
    (nextTime : K) :
    (self.compute time state nextTime).1
        = self.weightCompensatingInputs self.comModelPtr_ (self.getContactFlags time)
            (self.getOrientation (getComPose state))
      ∧ (∀ (stateOther : comkino_state_t K b j) (nextTimeOther : K),
          self.getOrientation (getComPose stateOther) = self.getOrientation (getComPose state)
            → (self.compute time stateOther nextTimeOther).1
              = (self.compute time state nextTime).1)
      ∧ (∀ noContact : F, self.getContactFlags time = noContact
          → (self.compute time state nextTime).1
            = self.weightCompensatingInputs self.comModelPtr_ noContact
                (self.getOrientation (getComPose state))) := by
  refine ⟨rfl, fun stateOther nextTimeOther hor => ?_, fun noContact hflags => ?_⟩
  · simp only [ComKinoInitializer.compute, hor]
  · simp only [ComKinoInitializer.compute, hflags]

end switched_model

namespace switched_model

section Idempotence

variable {K M F : Type} {b j : Nat}

theorem compute_snd_eq_append [LinearOrderedField K] (self : ComKinoInitializer K M F) (time : K)
    (state : comkino_state_t K b j) (nextTime : K) :
    (self.compute time state nextTime).2
      = getComPose state ++ (List.replicate b (0 : K) ++ getJointPositions state) := by
  simp only [ComKinoInitializer.compute, List.append_assoc]

theorem getComPose_length (state : comkino_state_t K b j) : (getComPose state).length = b := by
  have hlen : state.val.length = b + b + j := state.property
  unfold getComPose
  rw [List.length_take, hlen]
  omega

theorem getJointPositions_length (state : comkino_state_t K b j) :
    (getJointPositions state).length = j := by
  have hlen : state.val.length = b + b + j := state.property
  unfold getJointPositions
  rw [List.length_drop, hlen]
  omega

theorem compute_snd_length [LinearOrderedField K] (self : ComKinoInitializer K M F) (time : K)
    (state : comkino_state_t K b j) (nextTime : K) :
    (self.compute time state nextTime).2.length = STATE_DIM b j := by
  rw [compute_snd_eq_append]
  simp only [List.length_append, List.length_replicate, getComPose_length,
    getJointPositions_length, STATE_DIM]
  omega

/-- The pose block of the next state is the pose block of the state. -/
theorem getComPose_compute [LinearOrderedField K] (self : ComKinoInitializer K M F) (time : K)
    (state : comkino_state_t K b j) (nextTime : K)
    (h : (self.compute time state nextTime).2.length = STATE_DIM b j) :
    getComPose (⟨(self.compute time state nextTime).2, h⟩ : comkino_state_t K b j)
      = getComPose state := by
  show ((self.compute time state nextTime).2).take b = getComPose state
  rw [compute_snd_eq_append, List.take_left' (getComPose_length state)]

/-- The joint-position block of the next state is the joint-position block of the state. -/
theorem getJointPositions_compute [LinearOrderedField K] (self : ComKinoInitializer K M F) (time : K)
    (state : comkino_state_t K b j) (nextTime : K)
    (h : (self.compute time state nextTime).2.length = STATE_DIM b j) :
    getJointPositions (⟨(self.compute time state nextTime).2, h⟩ : comkino_state_t K b j)
      = getJointPositions state := by
  show ((self.compute time state nextTime).2).drop (b + b) = getJointPositions state
  rw [compute_snd_eq_append, ← List.append_assoc, List.drop_left']
  rw [List.length_append, getComPose_length, List.length_replicate]

end Idempotence

/-- C31: `ComKinoInitializer::compute` is idempotent on the state: the next state that
`compute(time, state, nextTime)` returns is again a state of `STATE_DIM` coefficients, and
`compute(time, nextState, nextTime')` returns the same input and the same next state, for
every `time`, `nextTime`, `nextTime'` and state. -/
theorem compute_idempotent {K M F : Type} [LinearOrderedField K] {b j : Nat}
    (self : ComKinoInitializer K M F) (time : K) (state : comkino_state_t K b j)
    (nextTime nextTimeOther : K) :
    ∃ h : (self.compute time state nextTime).2.length = STATE_DIM b j,
      (self.compute time (⟨(self.compute time state nextTime).2, h⟩ : comkino_state_t K b j)
          nextTimeOther).1 = (self.compute time state nextTime).1
        ∧ (self.compute time (⟨(self.compute time state nextTime).2, h⟩ : comkino_state_t K b j)
          nextTimeOther).2 = (self.compute time state nextTime).2 := by
  refine ⟨compute_snd_length self time state nextTime, ?_, ?_⟩
  · show self.weightCompensatingInputs self.comModelPtr_ (self.getContactFlags time)
        (self.getOrientation (getComPose _))
      = self.weightCompensatingInputs self.comModelPtr_ (self.getContactFlags time)
        (self.getOrientation (getComPose state))
    rw [getComPose_compute]
  · rw [compute_snd_eq_append, getComPose_compute, getJointPositions_compute,
      ← compute_snd_eq_append self time state nextTime]

end switched_model

namespace ocs2.augmented

section NonFiniteLemmas

variable {K : Type} [LinearOrderedField K]

theorem double_max_posInf_finite (y : K) :
    Double.max Double.posInf (Double.finite y) = Double.posInf := rfl

end NonFiniteLemmas

end ocs2.augmented

namespace ocs2.augmented

end ocs2.augmented
